import Mathlib

set_option maxRecDepth 8000000
set_option maxHeartbeats 4000000

/-!
Verification of the bidflow construction-ontology and NLP scope-analysis core.

The definitions below are a shallow embedding of the Python sources
`construction_ontology.py`, `construction_nlp_engine.py` and
`demo_nlp_lightweight.py`:
* Python `dict` is modelled as an insertion-ordered association list
  (`pyGet` / `pyInsert`, where `pyInsert` replaces the value in place when
  the key already exists, as Python dict assignment does);
* Python `set` of strings is modelled as a duplicate-free insertion list
  (`sinsert` adds an element only when absent);
* Python `float` is modelled as `ℚ` (exact rationals);
* a raised exception is modelled with `Option` / `Except`, where the
  `Except.error` payload carries the mutated state at the moment the
  exception escapes (Python mutates `self` in place).
-/

namespace BidFlow

/-- Lookup in a Python dict modelled as an association list. -/
def pyGet {κ α : Type} [DecidableEq κ] (k : κ) : List (κ × α) → Option α
  | [] => none
  | (k', v) :: d => if k' = k then some v else pyGet k d

/-- Python dict assignment `d[k] = v`: replaces the value in place when the
key exists, otherwise appends the new binding at the end. -/
def pyInsert {κ α : Type} [DecidableEq κ] (k : κ) (v : α) : List (κ × α) → List (κ × α)
  | [] => [(k, v)]
  | (k', v') :: d => if k' = k then (k, v) :: d else (k', v') :: pyInsert k v d

/-- Python `set.add`: appends only when the element is absent. -/
def sinsert (n : String) (l : List String) : List String :=
  if n ∈ l then l else l ++ [n]

/-- Python `str.lower` (ASCII case folding). -/
def pyLower (s : String) : String := ⟨s.data.map Char.toLower⟩

/-- Python `str.replace(a, b)` for single-character patterns. -/
def pyReplaceChar (s : String) (a b : Char) : String :=
  ⟨s.data.map (fun c => if c = a then b else c)⟩

/-- Python substring test `needle in hay` for a nonempty needle. -/
def pyContains (hay needle : String) : Bool :=
  (List.range (hay.data.length + 1)).any
    (fun i => ((hay.data.drop i).take needle.data.length) == needle.data)

/-- The `VocabularyCategory` enum of `construction_ontology.py`. -/
inductive VocabularyCategory where
  | work_type
  | material
  | unit
  | crew_type
  | equipment
deriving DecidableEq, Repr

/-- Enumeration order of `VocabularyCategory` (declaration order in the
Python `Enum`, which is the iteration order of `for category in
VocabularyCategory`). -/
def allCategories : List VocabularyCategory :=
  [.work_type, .material, .unit, .crew_type, .equipment]

/-- The `VocabularyTerm` dataclass.  The Python `set` fields are modelled as
lists (their construction order in the source literals); `unit_conversions`
and `properties` are Python dicts. -/
structure VocabularyTerm where
  canonical_name : String
  category : VocabularyCategory
  description : String
  synonyms : List String := []
  abbreviations : List String := []
  related_terms : List String := []
  unit_conversions : List (String × ℚ) := []
  properties : List (String × String) := []
deriving DecidableEq, Repr

/-- The mutable state of a `ConstructionOntology` instance: the canonical
vocabulary dict, the synonym/abbreviation index, and the per-category name
sets. -/
structure ConstructionOntology where
  vocabulary : List (String × VocabularyTerm)
  synonym_map : List (String × String)
  category_index : VocabularyCategory → List String

/-- The state of an ontology before `_initialize_vocabulary` has added any
term (`self.vocabulary = {}` etc. in `__init__`). -/
def emptyOntology : ConstructionOntology :=
  { vocabulary := [], synonym_map := [], category_index := fun _ => [] }

/-- The synonym-map updates performed by `add_term`: every synonym, then
every abbreviation, then the canonical name itself, all lower-cased, are
pointed at the canonical name (later writes overwrite earlier ones). -/
def registerForms (m : List (String × String)) (t : VocabularyTerm) :
    List (String × String) :=
  let m1 := t.synonyms.foldl (fun m s => pyInsert (pyLower s) t.canonical_name m) m
  let m2 := t.abbreviations.foldl (fun m s => pyInsert (pyLower s) t.canonical_name m) m1
  pyInsert (pyLower t.canonical_name) t.canonical_name m2

/-- `ConstructionOntology.add_term`. -/
def add_term (o : ConstructionOntology) (t : VocabularyTerm) : ConstructionOntology :=
  { vocabulary := pyInsert t.canonical_name t o.vocabulary
    synonym_map := registerForms o.synonym_map t
    category_index := fun c =>
      if c = t.category then sinsert t.canonical_name (o.category_index c)
      else o.category_index c }

/-- `ConstructionOntology.normalize_term`: lower-case, replace spaces by
underscores, look up in the synonym map. -/
def normalize_term (o : ConstructionOntology) (input_term : String) : Option String :=
  pyGet (pyReplaceChar (pyLower input_term) ' ' '_') o.synonym_map

/-- `ConstructionOntology.get_term`: normalize, then dereference the
vocabulary dict.  The source guards the dereference with `if canonical:`,
which is Python truthiness: both `None` and the empty string are falsy, so
an empty canonical name is never dereferenced. -/
def get_term (o : ConstructionOntology) (term : String) : Option VocabularyTerm :=
  match normalize_term o term with
  | some canonical =>
    if canonical = "" then none else pyGet canonical o.vocabulary
  | none => none

/-- `ConstructionOntology.convert_units`.  The retry branch is guarded by
`if to_canonical and to_canonical in from_term.unit_conversions:` in the
source — Python truthiness again, so an empty normalized target name skips
the retry and falls through to `return None`. -/
def convert_units (o : ConstructionOntology) (value : ℚ) (from_unit to_unit : String) :
    Option ℚ :=
  match get_term o from_unit with
  | some from_term =>
    match pyGet to_unit from_term.unit_conversions with
    | some factor => some (value * factor)
    | none =>
      match normalize_term o to_unit with
      | some to_canonical =>
        if to_canonical = "" then none
        else
          match pyGet to_canonical from_term.unit_conversions with
          | some factor => some (value * factor)
          | none => none
      | none => none
  | none => none

/-- The work-type seed terms of `_initialize_vocabulary`. -/
def workTypeTerms : List VocabularyTerm :=
  [ { canonical_name := "excavation", category := .work_type
      description := "Earth removal and site preparation work"
      synonyms := ["digging", "earth_work", "site_prep"]
      abbreviations := ["EXCV", "EXC"]
      related_terms := ["grading", "trenching", "backfill"] }
  , { canonical_name := "concrete_work", category := .work_type
      description := "Concrete placement, finishing, and related work"
      synonyms := ["concrete_placement", "concrete_pour", "concrete_finishing"]
      abbreviations := ["CONC", "CNC"]
      related_terms := ["formwork", "reinforcement", "curing"] }
  , { canonical_name := "framing", category := .work_type
      description := "Structural framing including wood and steel"
      synonyms := ["rough_carpentry", "structural_framing"]
      abbreviations := ["FRAM", "RC"]
      related_terms := ["lumber", "fasteners", "structural_engineering"] }
  , { canonical_name := "roofing", category := .work_type
      description := "Roof installation and waterproofing"
      synonyms := ["roof_installation", "roof_work"]
      abbreviations := ["ROOF", "RF"]
      related_terms := ["shingles", "underlayment", "flashing"] }
  , { canonical_name := "electrical", category := .work_type
      description := "Electrical system installation and wiring"
      synonyms := ["electrical_work", "wiring"]
      abbreviations := ["ELEC", "EL"]
      related_terms := ["conduit", "wire", "panel"] }
  , { canonical_name := "plumbing", category := .work_type
      description := "Plumbing system installation"
      synonyms := ["plumbing_work", "pipe_work"]
      abbreviations := ["PLMB", "PL"]
      related_terms := ["pipe", "fittings", "fixtures"] }
  , { canonical_name := "masonry", category := .work_type
      description := "Brick, block, and stone work"
      synonyms := ["brick_work", "block_work", "stone_work"]
      abbreviations := ["MASN", "MAS"]
      related_terms := ["mortar", "brick", "concrete_block"] }
  , { canonical_name := "drywall", category := .work_type
      description := "Drywall installation and finishing"
      synonyms := ["gypsum_board", "sheetrock"]
      abbreviations := ["DW", "GWB"]
      related_terms := ["tape", "mud", "texture"] }
  , { canonical_name := "insulation", category := .work_type
      description := "Thermal and acoustic insulation installation"
      synonyms := ["insulation_work"]
      abbreviations := ["INSUL", "INS"]
      related_terms := ["batt_insulation", "spray_foam", "vapor_barrier"] }
  , { canonical_name := "flooring", category := .work_type
      description := "Floor covering installation"
      synonyms := ["floor_installation", "floor_covering"]
      abbreviations := ["FLR", "FLRG"]
      related_terms := ["underlayment", "adhesive", "transition_strips"] } ]

/-- The material seed terms of `_initialize_vocabulary`. -/
def materialTerms : List VocabularyTerm :=
  [ { canonical_name := "concrete", category := .material
      description := "Portland cement concrete"
      synonyms := ["cement", "concrete_mix"]
      abbreviations := ["CONC", "CNC"]
      related_terms := ["aggregate", "cement", "water"]
      properties := [("strength", "variable"), ("curing_time", "28_days")] }
  , { canonical_name := "rebar", category := .material
      description := "Reinforcing steel bar"
      synonyms := ["reinforcing_steel", "reinforcement"]
      abbreviations := ["RB", "REINF"]
      related_terms := ["concrete", "ties", "chairs"] }
  , { canonical_name := "lumber", category := .material
      description := "Dimensional lumber for framing"
      synonyms := ["wood", "framing_lumber"]
      abbreviations := ["LBR", "WD"]
      related_terms := ["nails", "screws", "brackets"] }
  , { canonical_name := "concrete_masonry_unit", category := .material
      description := "Concrete block for masonry construction"
      synonyms := ["concrete_block", "cinder_block", "block"]
      abbreviations := ["CMU", "BLK"]
      related_terms := ["mortar", "grout", "reinforcement"] }
  , { canonical_name := "brick", category := .material
      description := "Clay brick for masonry"
      synonyms := ["clay_brick", "face_brick"]
      abbreviations := ["BRK", "BR"]
      related_terms := ["mortar", "ties", "flashing"] }
  , { canonical_name := "gypsum_board", category := .material
      description := "Drywall panels"
      synonyms := ["drywall", "sheetrock", "wallboard"]
      abbreviations := ["GWB", "DW"]
      related_terms := ["screws", "tape", "compound"] }
  , { canonical_name := "insulation_batt", category := .material
      description := "Fiberglass batt insulation"
      synonyms := ["fiberglass_insulation", "batt_insulation"]
      abbreviations := ["INSUL", "FG"]
      related_terms := ["vapor_barrier", "staples"] }
  , { canonical_name := "roofing_shingle", category := .material
      description := "Asphalt roofing shingles"
      synonyms := ["shingles", "roof_shingles"]
      abbreviations := ["SHGL", "RS"]
      related_terms := ["underlayment", "nails", "ridge_cap"] }
  , { canonical_name := "conduit", category := .material
      description := "Electrical conduit piping"
      synonyms := ["electrical_conduit", "pipe"]
      abbreviations := ["COND", "EMT"]
      related_terms := ["fittings", "wire", "connectors"] }
  , { canonical_name := "pipe", category := .material
      description := "Plumbing pipe"
      synonyms := ["plumbing_pipe", "water_pipe"]
      abbreviations := ["PP", "PVC"]
      related_terms := ["fittings", "joints", "sealant"] } ]

/-- The unit seed terms of `_initialize_vocabulary`. -/
def unitTerms : List VocabularyTerm :=
  [ { canonical_name := "linear_feet", category := .unit
      description := "Linear measurement in feet"
      synonyms := ["linear_foot", "running_feet", "running_foot"]
      abbreviations := ["LF", "LIN FT", "RF"]
      unit_conversions := [("inches", 12.0), ("yards", 0.333), ("meters", 0.3048)] }
  , { canonical_name := "square_feet", category := .unit
      description := "Area measurement in square feet"
      synonyms := ["square_foot"]
      abbreviations := ["SF", "SQ FT", "FT2"]
      unit_conversions :=
        [("square_inches", 144.0), ("square_yards", 0.111), ("square_meters", 0.0929)] }
  , { canonical_name := "cubic_feet", category := .unit
      description := "Volume measurement in cubic feet"
      synonyms := ["cubic_foot"]
      abbreviations := ["CF", "CU FT", "FT3"]
      unit_conversions :=
        [("cubic_inches", 1728.0), ("cubic_yards", 0.037), ("cubic_meters", 0.0283)] }
  , { canonical_name := "cubic_yards", category := .unit
      description := "Volume measurement in cubic yards"
      synonyms := ["cubic_yard"]
      abbreviations := ["CY", "CU YD", "YD3"]
      unit_conversions := [("cubic_feet", 27.0), ("cubic_meters", 0.765)] }
  , { canonical_name := "each", category := .unit
      description := "Individual count unit"
      synonyms := ["piece", "item", "unit"]
      abbreviations := ["EA", "PC", "PCS"]
      unit_conversions := [] }
  , { canonical_name := "tons", category := .unit
      description := "Weight measurement in tons"
      synonyms := ["ton"]
      abbreviations := ["TON", "T"]
      unit_conversions := [("pounds", 2000.0), ("kilograms", 907.185)] }
  , { canonical_name := "pounds", category := .unit
      description := "Weight measurement in pounds"
      synonyms := ["pound"]
      abbreviations := ["LB", "LBS", "#"]
      unit_conversions := [("tons", 0.0005), ("kilograms", 0.453592)] }
  , { canonical_name := "gallons", category := .unit
      description := "Volume measurement in gallons"
      synonyms := ["gallon"]
      abbreviations := ["GAL", "G"]
      unit_conversions := [("liters", 3.78541), ("cubic_feet", 0.133681)] }
  , { canonical_name := "hours", category := .unit
      description := "Time measurement in hours"
      synonyms := ["hour", "labor_hours"]
      abbreviations := ["HR", "HRS", "LH"]
      unit_conversions := [("days", 0.125), ("minutes", 60.0)] }
  , { canonical_name := "man_hours", category := .unit
      description := "Labor time measurement"
      synonyms := ["labor_hours", "person_hours"]
      abbreviations := ["MH", "LH"]
      unit_conversions := [("hours", 1.0)] } ]

/-- The crew-type seed terms of `_initialize_vocabulary`. -/
def crewTypeTerms : List VocabularyTerm :=
  [ { canonical_name := "concrete_crew", category := .crew_type
      description := "Crew specializing in concrete work"
      synonyms := ["concrete_team", "cement_crew"]
      abbreviations := ["CC", "CONC_CREW"]
      related_terms := ["concrete", "formwork", "finishing"] }
  , { canonical_name := "framing_crew", category := .crew_type
      description := "Crew specializing in structural framing"
      synonyms := ["framing_team", "carpentry_crew"]
      abbreviations := ["FC", "FRAM_CREW"]
      related_terms := ["lumber", "fasteners", "tools"] }
  , { canonical_name := "electrical_crew", category := .crew_type
      description := "Licensed electricians"
      synonyms := ["electrical_team", "electricians"]
      abbreviations := ["EC", "ELEC_CREW"]
      related_terms := ["conduit", "wire", "panels"] }
  , { canonical_name := "plumbing_crew", category := .crew_type
      description := "Licensed plumbers"
      synonyms := ["plumbing_team", "plumbers"]
      abbreviations := ["PC", "PLMB_CREW"]
      related_terms := ["pipe", "fittings", "fixtures"] }
  , { canonical_name := "masonry_crew", category := .crew_type
      description := "Crew specializing in masonry work"
      synonyms := ["masonry_team", "masons"]
      abbreviations := ["MC", "MAS_CREW"]
      related_terms := ["brick", "block", "mortar"] }
  , { canonical_name := "drywall_crew", category := .crew_type
      description := "Crew specializing in drywall installation"
      synonyms := ["drywall_team", "taping_crew"]
      abbreviations := ["DC", "DW_CREW"]
      related_terms := ["gypsum_board", "tape", "compound"] }
  , { canonical_name := "roofing_crew", category := .crew_type
      description := "Crew specializing in roofing work"
      synonyms := ["roofing_team", "roofers"]
      abbreviations := ["RC", "ROOF_CREW"]
      related_terms := ["shingles", "underlayment", "flashing"] }
  , { canonical_name := "excavation_crew", category := .crew_type
      description := "Crew specializing in excavation and earthwork"
      synonyms := ["excavation_team", "earthwork_crew"]
      abbreviations := ["XC", "EXCV_CREW"]
      related_terms := ["excavator", "grading", "compaction"] }
  , { canonical_name := "general_laborers", category := .crew_type
      description := "General construction laborers"
      synonyms := ["laborers", "helpers", "construction_workers"]
      abbreviations := ["GL", "LAB"]
      related_terms := ["cleanup", "material_handling", "site_prep"] }
  , { canonical_name := "finish_crew", category := .crew_type
      description := "Crew specializing in finish work"
      synonyms := ["finish_team", "trim_crew"]
      abbreviations := ["FN", "FINISH_CREW"]
      related_terms := ["trim", "paint", "flooring"] } ]

/-- The equipment seed terms of `_initialize_vocabulary`. -/
def equipmentTerms : List VocabularyTerm :=
  [ { canonical_name := "excavator", category := .equipment
      description := "Tracked excavating machine"
      synonyms := ["track_hoe", "digger"]
      abbreviations := ["EXC", "EXCV"]
      related_terms := ["bucket", "tracks", "hydraulics"] }
  , { canonical_name := "bulldozer", category := .equipment
      description := "Tracked earthmoving machine with blade"
      synonyms := ["dozer", "track_dozer"]
      abbreviations := ["BULL", "DOZ"]
      related_terms := ["blade", "ripper", "tracks"] }
  , { canonical_name := "concrete_mixer", category := .equipment
      description := "Truck-mounted concrete mixing drum"
      synonyms := ["ready_mix_truck", "cement_truck"]
      abbreviations := ["MX", "RMT"]
      related_terms := ["chute", "drum", "concrete"] }
  , { canonical_name := "crane", category := .equipment
      description := "Mobile lifting equipment"
      synonyms := ["mobile_crane", "lifting_crane"]
      abbreviations := ["CR", "CRN"]
      related_terms := ["boom", "hook", "outriggers"] }
  , { canonical_name := "compactor", category := .equipment
      description := "Soil and asphalt compacting equipment"
      synonyms := ["roller", "vibrating_compactor"]
      abbreviations := ["COMP", "ROLL"]
      related_terms := ["vibration", "drum", "compaction"] }
  , { canonical_name := "forklift", category := .equipment
      description := "Material handling lift truck"
      synonyms := ["lift_truck", "fork_truck"]
      abbreviations := ["FL", "LIFT"]
      related_terms := ["forks", "mast", "material_handling"] }
  , { canonical_name := "skid_steer", category := .equipment
      description := "Compact wheeled loader"
      synonyms := ["skid_loader", "bobcat"]
      abbreviations := ["SS", "SKID"]
      related_terms := ["bucket", "attachment", "compact"] }
  , { canonical_name := "dump_truck", category := .equipment
      description := "Truck with hydraulic dump bed"
      synonyms := ["dumper", "tipper_truck"]
      abbreviations := ["DT", "DUMP"]
      related_terms := ["bed", "hydraulics", "hauling"] }
  , { canonical_name := "generator", category := .equipment
      description := "Portable electrical power generator"
      synonyms := ["portable_generator", "genset"]
      abbreviations := ["GEN", "GENR"]
      related_terms := ["fuel", "power", "electrical"] }
  , { canonical_name := "scaffold", category := .equipment
      description := "Temporary work platform structure"
      synonyms := ["scaffolding", "work_platform"]
      abbreviations := ["SCAF", "PLAT"]
      related_terms := ["planks", "frames", "safety"] } ]

/-- `all_terms = work_types + materials + units + crew_types + equipment`. -/
def seedTerms : List VocabularyTerm :=
  workTypeTerms ++ materialTerms ++ unitTerms ++ crewTypeTerms ++ equipmentTerms

/-- The ontology produced by `ConstructionOntology()` (empty state followed
by `_initialize_vocabulary`, which calls `add_term` on every seed term in
list order). -/
def seedOntology : ConstructionOntology :=
  seedTerms.foldl add_term emptyOntology

/-- Every ontology state the program can construct: the freshly seeded
store, mutated by any sequence of `add_term` calls (`load_from_json` is
itself a sequence of `add_term` calls). -/
inductive Reachable : ConstructionOntology → Prop where
  | seed : Reachable seedOntology
  | add {o : ConstructionOntology} (t : VocabularyTerm) :
      Reachable o → Reachable (add_term o t)

/-! ### Serialization: `export_vocabulary` and `load_from_json`

The JSON persistence format of §`export_vocabulary`/`load_from_json`.
A term object read back from JSON may lack the `description` field, in
which case `term_data['description']` raises `KeyError`; every other field
is read with `.get(..., default)`.  `load_from_json` mutates the store in
place term by term; the `Except.error` payload is the state of the store
at the moment the exception escapes. -/

/-- A term object of the persisted JSON vocabulary.  Only `description`
can be missing (all other fields are read via `dict.get` with a default). -/
structure RawTermData where
  description : Option String := none
  synonyms : List String := []
  abbreviations : List String := []
  related_terms : List String := []
  unit_conversions : List (String × ℚ) := []
  properties : List (String × String) := []
deriving DecidableEq, Repr

/-- The `VocabularyTerm(...)` constructed by `load_from_json` for one JSON
term object (given that its `description` was present). -/
def mkLoadedTerm (n : String) (c : VocabularyCategory) (desc : String)
    (d : RawTermData) : VocabularyTerm :=
  { canonical_name := n, category := c, description := desc
    synonyms := d.synonyms, abbreviations := d.abbreviations
    related_terms := d.related_terms, unit_conversions := d.unit_conversions
    properties := d.properties }

/-- The inner loop of `load_from_json` over the term objects of one
category. -/
def loadTermList (o : ConstructionOntology) (c : VocabularyCategory) :
    List (String × RawTermData) → Except ConstructionOntology ConstructionOntology
  | [] => .ok o
  | (n, d) :: rest =>
    match d.description with
    | none => .error o
    | some desc => loadTermList (add_term o (mkLoadedTerm n c desc d)) c rest

/-- `ConstructionOntology.load_from_json`: iterate the categories of the
JSON object in order, adding every term via `add_term`. -/
def load_from_json (o : ConstructionOntology) :
    List (VocabularyCategory × List (String × RawTermData)) →
    Except ConstructionOntology ConstructionOntology
  | [] => .ok o
  | (c, terms) :: rest =>
    match loadTermList o c terms with
    | .ok o2 => load_from_json o2 rest
    | .error o2 => .error o2

/-- The per-term field block written by `export_vocabulary`. -/
structure TermExportData where
  description : String
  synonyms : List String
  abbreviations : List String
  related_terms : List String
  unit_conversions : List (String × ℚ)
  properties : List (String × String)
deriving DecidableEq, Repr

/-- The field block `export_vocabulary` writes for one term. -/
def toExportData (t : VocabularyTerm) : TermExportData :=
  ⟨t.description, t.synonyms, t.abbreviations, t.related_terms,
   t.unit_conversions, t.properties⟩

/-- Effectful map over `Option` (`none` propagates, order preserved). -/
def optTraverse {α β : Type} (f : α → Option β) : List α → Option (List β)
  | [] => some []
  | a :: l =>
    match f a with
    | none => none
    | some b => (optTraverse f l).map (fun bs => b :: bs)

/-- One category of `export_vocabulary`: the names in the category index in
order, each dereferenced through the vocabulary dict.  `none` models the
`KeyError` that `self.vocabulary[term_name]` would raise for a dangling
index entry (never reached from a reachable store). -/
def exportCat (o : ConstructionOntology) (c : VocabularyCategory) :
    Option (List (String × TermExportData)) :=
  optTraverse (fun n => (pyGet n o.vocabulary).map (fun t => (n, toExportData t)))
    (o.category_index c)

/-- `ConstructionOntology.export_vocabulary`: the nested dict keyed by
category, then by canonical name. -/
def export_vocabulary (o : ConstructionOntology) :
    Option (List (VocabularyCategory × List (String × TermExportData))) :=
  optTraverse (fun c => (exportCat o c).map (fun l => (c, l))) allCategories

/-- Reading exported data back in as JSON: every field block written by
`export_vocabulary` carries a `description`. -/
def rawOfExportTerm (e : TermExportData) : RawTermData :=
  { description := some e.description, synonyms := e.synonyms
    abbreviations := e.abbreviations, related_terms := e.related_terms
    unit_conversions := e.unit_conversions, properties := e.properties }

/-- The JSON data corresponding to an exported vocabulary. -/
def rawOfExport (d : List (VocabularyCategory × List (String × TermExportData))) :
    List (VocabularyCategory × List (String × RawTermData)) :=
  d.map (fun p => (p.1, p.2.map (fun q => (q.1, rawOfExportTerm q.2))))

/-- Lookup of one term block in exported data (category, then name). -/
def exportLookup (d : List (VocabularyCategory × List (String × TermExportData)))
    (c : VocabularyCategory) (n : String) : Option TermExportData :=
  (pyGet c d).bind (fun l => pyGet n l)

/-- Two string collections are equal as sets. -/
def listSetEq (a b : List String) : Prop := ∀ x, x ∈ a ↔ x ∈ b

/-- Two dicts are equal as maps. -/
def dictEq {α : Type} (a b : List (String × α)) : Prop := ∀ k, pyGet k a = pyGet k b

/-- Structural equality of two exported term blocks, with the
synonym/abbreviation/related-term collections compared as sets and the
conversion/property dicts compared as maps. -/
def termExportEquiv (a b : TermExportData) : Prop :=
  a.description = b.description ∧ listSetEq a.synonyms b.synonyms ∧
  listSetEq a.abbreviations b.abbreviations ∧
  listSetEq a.related_terms b.related_terms ∧
  dictEq a.unit_conversions b.unit_conversions ∧ dictEq a.properties b.properties

/-- Pointwise relation on optional values (both absent, or both present and
related). -/
def OptEquiv {α : Type} (R : α → α → Prop) : Option α → Option α → Prop
  | none, none => True
  | some a, some b => R a b
  | _, _ => False

/-- Structural equality of two exported vocabularies: the same
category → canonical-name → field-block contents. -/
def exportEquiv (d1 d2 : List (VocabularyCategory × List (String × TermExportData))) :
    Prop :=
  ∀ c n, OptEquiv termExportEquiv (exportLookup d1 c n) (exportLookup d2 c n)

/-! ### Entity extraction (`demo_nlp_lightweight.py` / `construction_nlp_engine.py`)

`EntityExtraction` is the shared shape of the `EntityExtraction` and
`LightweightEntityExtraction` dataclasses.  The Python `end` field is named
`stop` here (`end` is a Lean keyword).  The regex matchers of the source
are modelled as explicit scanners over the character list; `re.finditer`
semantics (leftmost match, continue after the end of each match) is
implemented by `finditerM`. -/

/-- The extracted-entity dataclass (offsets are character offsets; `stop`
is the exclusive `end` offset). -/
structure EntityExtraction where
  start : Nat
  stop : Nat
  label : String
  text : String
  confidence : ℚ
  ontology_id : Option String := none
  ontology_category : Option String := none
  normalized_value : Option String := none
deriving DecidableEq, Repr

/-- The scope-analysis dataclass (shared shape of
`ConstructionScopeAnalysis` and `LightweightScopeAnalysis`). -/
structure ScopeAnalysis where
  original_text : String
  entities : List EntityExtraction
  work_type : Option String := none
  operation : Option String := none
  total_quantity : Option ℚ := none
  primary_unit : Option String := none
  materials : List String := []
  equipment : List String := []
  modifiers : List String := []
  confidence_score : ℚ := 0
deriving DecidableEq, Repr

/-- A regex word character (`\w`): alphanumeric or underscore. -/
def wordChar (c : Char) : Bool := c.isAlphanum || c = '_'

/-- Whether the character at position `i` exists and is a word character. -/
def wordAt (t : List Char) (i : Nat) : Bool :=
  match t.drop i with
  | [] => false
  | c :: _ => wordChar c

/-- The regex word-boundary assertion `\b` at gap position `i`. -/
def boundaryAt (t : List Char) (i : Nat) : Bool :=
  (if i = 0 then false else wordAt t (i - 1)) != wordAt t i

/-- Lower-case a character list (`re.IGNORECASE` matching). -/
def lowers (l : List Char) : List Char := l.map Char.toLower

/-- Case-insensitive match of the word-bounded literal pattern
`\b<lit>\b` at position `i`. -/
def litMatchAt (t : List Char) (lit : List Char) (i : Nat) : Option Nat :=
  if lowers ((t.drop i).take lit.length) = lowers lit ∧ lit ≠ [] ∧
      boundaryAt t i = true ∧ boundaryAt t (i + lit.length) = true then
    some lit.length
  else none

/-- Length of the maximal digit run starting at the head. -/
def digitRunAux : List Char → Nat
  | [] => 0
  | c :: r => if c.isDigit then digitRunAux r + 1 else 0

/-- Length of the maximal digit run starting at position `i`. -/
def digitRun (t : List Char) (i : Nat) : Nat := digitRunAux (t.drop i)

/-- The character at position `i`, if any. -/
def charAt (t : List Char) (i : Nat) : Option Char :=
  match t.drop i with
  | [] => none
  | c :: _ => some c

/-- Match of the regex `\b\d+\b` at position `i` (the whole digit run,
which must be delimited by word boundaries). -/
def matchIntAt (t : List Char) (i : Nat) : Option Nat :=
  let r := digitRun t i
  if boundaryAt t i = true ∧ 0 < r ∧ boundaryAt t (i + r) = true then some r
  else none

/-- Match of the regex `\b\d+\.\d+\b` at position `i`. -/
def matchDecimalAt (t : List Char) (i : Nat) : Option Nat :=
  let r1 := digitRun t i
  let r2 := digitRun t (i + r1 + 1)
  if boundaryAt t i = true ∧ 0 < r1 ∧ charAt t (i + r1) = some '.' ∧ 0 < r2 ∧
      boundaryAt t (i + r1 + 1 + r2) = true then
    some (r1 + 1 + r2)
  else none

/-- Number of greedy repetitions of `(?:,\d{3})` starting at position `p`
(each repetition consumes a comma and exactly three digits). -/
def commaGroupsAux (t : List Char) : Nat → Nat → Nat
  | 0, _ => 0
  | fuel + 1, p =>
    if charAt t p = some ',' ∧ 3 ≤ digitRun t (p + 1) then
      commaGroupsAux t fuel (p + 4) + 1
    else 0

/-- Greedy repetition count for `(?:,\d{3})*` at position `p`. -/
def commaGroups (t : List Char) (p : Nat) : Nat := commaGroupsAux t t.length p

/-- The optional greedy fraction `(?:\.\d+)?` at position `p` followed by
`\b`: the resulting end position, if the branch succeeds. -/
def fracAttempt (t : List Char) (p : Nat) : Option Nat :=
  let f := digitRun t (p + 1)
  if charAt t p = some '.' ∧ 0 < f ∧ boundaryAt t (p + 1 + f) = true then
    some (p + 1 + f)
  else none

/-- Backtracking over the group count `g` (greedy: largest first): at each
candidate position try the fraction branch, then the empty branch with the
final `\b`. -/
def tryGroups (t : List Char) (base : Nat) : Nat → Option Nat
  | 0 =>
    (fracAttempt t base).orElse
      (fun _ => if boundaryAt t base = true then some base else none)
  | g + 1 =>
    ((fracAttempt t (base + 4 * (g + 1))).orElse
      (fun _ =>
        if boundaryAt t (base + 4 * (g + 1)) = true then some (base + 4 * (g + 1))
        else none)).orElse
      (fun _ => tryGroups t base g)

/-- Match of the regex `\b\d{1,3}(?:,\d{3})*(?:\.\d+)?\b` at position `i`
(the thousands-comma-grouped number pattern).  `\d{1,3}` can only succeed
with the whole leading digit run (a shorter prefix leaves a digit adjacent
to the next regex element, which fails), so a run longer than three digits
admits no match at `i`. -/
def matchCommaNumAt (t : List Char) (i : Nat) : Option Nat :=
  let r := digitRun t i
  if boundaryAt t i = true ∧ 0 < r ∧ r ≤ 3 then
    (tryGroups t (i + r) (commaGroups t (i + r))).map (fun e => e - i)
  else none

/-- One step of `re.finditer`: the first position `j ≥ i` where the matcher
succeeds. -/
def firstMatchFrom (m : List Char → Nat → Option Nat) (t : List Char) (i : Nat) :
    Option (Nat × Nat) :=
  (((List.range (t.length + 1)).filter (fun j => i ≤ j)).find?
      (fun j => (m t j).isSome)).bind
    (fun j => (m t j).map (fun len => (j, j + len)))

/-- `re.finditer` over a matcher: scan left to right, emit each leftmost
match and continue at its end. -/
def finditerAux (m : List Char → Nat → Option Nat) (t : List Char) :
    Nat → Nat → List (Nat × Nat)
  | 0, _ => []
  | fuel + 1, i =>
    match firstMatchFrom m t i with
    | none => []
    | some (j, e) =>
      (j, e) :: finditerAux m t fuel (if e ≤ j then j + 1 else e)

/-- All matches of a matcher in a text, in `re.finditer` order. -/
def finditerM (m : List Char → Nat → Option Nat) (t : List Char) :
    List (Nat × Nat) :=
  finditerAux m t (t.length + 1) 0

/-- The substring of `text` at character range `[i, j)`. -/
def sliceStr (text : String) (i j : Nat) : String :=
  ⟨(text.data.drop i).take (j - i)⟩

/-- The `.value` string of a category (the Python `Enum` values). -/
def categoryValue : VocabularyCategory → String
  | .work_type => "work_type"
  | .material => "material"
  | .unit => "unit"
  | .crew_type => "crew_type"
  | .equipment => "equipment"

/-- Python `str.replace("_", " ")`. -/
def underscoreToSpace (s : String) : String := pyReplaceChar s '_' ' '

/-- The literal alternatives of the fixed operation regex of
`_build_patterns`. -/
def operationLiterals : List String :=
  ["install", "pour", "frame", "excavate", "apply", "set", "place", "mount",
   "run", "lay", "hang", "finish"]

/-- The pattern lists built by `LightweightConstructionNLP._build_patterns`:
per label, the word-bounded literals derived from the ontology (pattern
list order follows the vocabulary dict iteration).  The three numeric
quantity regexes and the operation alternation are fixed. -/
structure LightPatterns where
  unit : List String
  material : List String
  equipment : List String
deriving DecidableEq, Repr

/-- `LightweightConstructionNLP._build_patterns` (the ontology-derived
literal lists; the numeric and operation patterns are fixed and modelled
directly in `lightCandidates`). -/
def build_patterns (o : ConstructionOntology) : LightPatterns :=
  o.vocabulary.foldl
    (fun ps p =>
      let t := p.2
      match t.category with
      | .unit =>
        { ps with unit := ps.unit ++ t.abbreviations ++
            [underscoreToSpace t.canonical_name] }
      | .material =>
        { ps with material := ps.material ++ [underscoreToSpace t.canonical_name] ++
            t.synonyms.map underscoreToSpace ++ t.abbreviations }
      | .equipment =>
        { ps with equipment := ps.equipment ++ [underscoreToSpace t.canonical_name] ++
            t.synonyms.map underscoreToSpace }
      | _ => ps)
    { unit := [], material := [], equipment := [] }

/-- An entity built from a rule-based match, with the ontology-alignment
fields attached when `get_term` resolves the matched text. -/
def mkAligned (o : ConstructionOntology) (label : String) (conf : ℚ)
    (text : String) (m : Nat × Nat) : EntityExtraction :=
  let s := sliceStr text m.1 m.2
  let base : EntityExtraction :=
    { start := m.1, stop := m.2, label := label, text := s, confidence := conf }
  match get_term o s with
  | some t =>
    { base with ontology_id := some t.canonical_name
                ontology_category := some (categoryValue t.category)
                normalized_value := some t.canonical_name }
  | none => base

/-- An entity built from a match with no ontology lookup (quantities and
operations). -/
def mkPlain (label : String) (conf : ℚ) (text : String) (m : Nat × Nat) :
    EntityExtraction :=
  { start := m.1, stop := m.2, label := label, text := sliceStr text m.1 m.2
    confidence := conf }

/-- All candidate entities gathered by
`LightweightConstructionNLP.extract_entities` before sorting and overlap
removal: quantities (three numeric patterns, confidence 0.9), units (0.85),
materials (0.8), equipment (0.8), operations (0.9), in that order. -/
def lightCandidates (o : ConstructionOntology) (ps : LightPatterns)
    (text : String) : List EntityExtraction :=
  let t := text.data
  (finditerM matchCommaNumAt t ++ finditerM matchDecimalAt t ++
      finditerM matchIntAt t).map (mkPlain "QUANTITY" 0.9 text) ++
  (ps.unit.flatMap (fun lit => finditerM (litMatchAt · lit.data ·) t)).map
    (mkAligned o "UNIT" 0.85 text) ++
  (ps.material.flatMap (fun lit => finditerM (litMatchAt · lit.data ·) t)).map
    (mkAligned o "MATERIAL" 0.8 text) ++
  (ps.equipment.flatMap (fun lit => finditerM (litMatchAt · lit.data ·) t)).map
    (mkAligned o "EQUIPMENT" 0.8 text) ++
  (operationLiterals.flatMap (fun lit => finditerM (litMatchAt · lit.data ·) t)).map
    (mkPlain "OPERATION" 0.9 text)

/-- The sort key relation of `entities.sort(key=lambda x: x.start)`. -/
def startLE (a b : EntityExtraction) : Prop := a.start ≤ b.start

instance : DecidableRel startLE := fun a b => Nat.decLe a.start b.start

instance : IsTotal EntityExtraction startLE := ⟨fun a b => Nat.le_total a.start b.start⟩

instance : IsTrans EntityExtraction startLE := ⟨fun _ _ _ => Nat.le_trans⟩

/-- Python `list.sort(key=lambda x: x.start)` (stable ascending sort). -/
def sortByStart (l : List EntityExtraction) : List EntityExtraction :=
  l.insertionSort startLE

/-- The loop body of `_remove_overlaps`: `last` is `filtered[-1]`, `acc`
the earlier kept entities in reverse order. -/
def rmOverlapsGo (last : EntityExtraction) (acc : List EntityExtraction) :
    List EntityExtraction → List EntityExtraction
  | [] => (last :: acc).reverse
  | e :: rest =>
    if e.start < last.stop then
      if last.confidence < e.confidence then rmOverlapsGo e acc rest
      else rmOverlapsGo last acc rest
    else rmOverlapsGo e (last :: acc) rest

/-- `LightweightConstructionNLP._remove_overlaps`. -/
def remove_overlaps : List EntityExtraction → List EntityExtraction
  | [] => []
  | e :: rest => rmOverlapsGo e [] rest

/-- `LightweightConstructionNLP.extract_entities` for an engine whose
ontology is `o`: gather candidates, sort by start, remove overlaps. -/
def light_extract_entities (o : ConstructionOntology) (text : String) :
    List EntityExtraction :=
  remove_overlaps (sortByStart (lightCandidates o (build_patterns o) text))

/-- The ordered keyword table of `_determine_work_type` (identical in
`construction_nlp_engine.py` and `demo_nlp_lightweight.py`; Python dict
literals iterate in insertion order). -/
def work_type_keywords : List (String × List String) :=
  [ ("concrete_work", ["concrete", "pour", "footing", "slab", "foundation"])
  , ("excavation", ["excavate", "dig", "grade", "trench", "soil"])
  , ("framing", ["frame", "lumber", "stud", "joist", "beam"])
  , ("electrical", ["electrical", "wire", "conduit", "panel", "circuit"])
  , ("plumbing", ["plumbing", "pipe", "water", "drain", "sewer"])
  , ("roofing", ["roof", "shingle", "membrane", "flashing"])
  , ("masonry", ["brick", "block", "masonry", "mortar"])
  , ("drywall", ["drywall", "sheetrock", "gypsum", "hang", "tape"])
  , ("insulation", ["insulation", "insulate", "batt", "foam"])
  , ("flooring", ["floor", "flooring", "tile", "carpet", "hardwood"]) ]

/-- `_determine_work_type`: first work type (in table order) with any
keyword contained in the lower-cased text; `None` when no keyword is
found. -/
def determine_work_type (text : String) : Option String :=
  let text_lower := pyLower text
  (work_type_keywords.find? (fun p => p.2.any (fun kw => pyContains text_lower kw))).map
    (fun p => p.1)

/-- `LightweightConstructionNLP._extract_operation`: the lower-cased text
of the first OPERATION entity. -/
def light_extract_operation (entities : List EntityExtraction) : Option String :=
  (entities.find? (fun e => e.label = "OPERATION")).map (fun e => pyLower e.text)

/-- Python `float()` on the digit/period strings produced by the quantity
regexes (after comma stripping); `none` models `ValueError`. -/
def pyFloat (s : String) : Option ℚ :=
  match s.data.splitOn '.' with
  | [ip] =>
    if ip ≠ [] ∧ ip.all Char.isDigit then
      some ((ip.foldl (fun n c => n * 10 + (c.toNat - 48)) 0 : Nat) : ℚ)
    else none
  | [ip, fp] =>
    if (ip ≠ [] ∨ fp ≠ []) ∧ ip.all Char.isDigit ∧ fp.all Char.isDigit then
      some (((ip.foldl (fun n c => n * 10 + (c.toNat - 48)) 0 : Nat) : ℚ) +
        ((fp.foldl (fun n c => n * 10 + (c.toNat - 48)) 0 : Nat) : ℚ) /
          ((10 : ℚ) ^ fp.length))
    else none
  | _ => none

/-- `entity.text.replace(',', '')` followed by `float(...)`. -/
def parseQuantity (s : String) : Option ℚ :=
  pyFloat ⟨s.data.filter (fun c => ¬ c = ',')⟩

/-- `LightweightConstructionNLP.analyze_construction_scope`. -/
def analyze_construction_scope (o : ConstructionOntology) (text : String) :
    ScopeAnalysis :=
  let entities := light_extract_entities o text
  let quantities := entities.filterMap
    (fun e => if e.label = "QUANTITY" then parseQuantity e.text else none)
  let units := (entities.filter (fun e => e.label = "UNIT")).map (fun e => e.text)
  { original_text := text
    entities := entities
    work_type := determine_work_type text
    operation := light_extract_operation entities
    total_quantity := quantities.head?
    primary_unit := units.head?
    materials := (entities.filter (fun e => e.label = "MATERIAL")).map (fun e => e.text)
    equipment := (entities.filter (fun e => e.label = "EQUIPMENT")).map (fun e => e.text)
    modifiers := []
    confidence_score :=
      if entities = [] then 0
      else (entities.map (fun e => e.confidence)).sum / (entities.length : ℚ) }

/-! ### The full engine (`ConstructionNLPEngine.extract_entities`)

The spaCy document entities are an external collaborator; they enter the
model as an arbitrary list of `SpacyEntity` records.  The BERT tier is
empty (`is_trained` is false in a freshly constructed engine). -/

/-- An external spaCy entity span (`doc.ents` record). -/
structure SpacyEntity where
  start_char : Nat
  end_char : Nat
  label_ : String
  text : String
deriving DecidableEq, Repr

/-- The `EntityExtraction` the engine builds from a spaCy entity
(confidence fixed at 0.8, ontology alignment from `get_term`). -/
def engineAlign (o : ConstructionOntology) (ent : SpacyEntity) : EntityExtraction :=
  let base : EntityExtraction :=
    { start := ent.start_char, stop := ent.end_char, label := ent.label_
      text := ent.text, confidence := 0.8 }
  match get_term o ent.text with
  | some t =>
    { base with ontology_id := some t.canonical_name
                ontology_category := some (categoryValue t.category)
                normalized_value := some t.canonical_name }
  | none => base

/-- `ConstructionNLPEngine._extract_quantities`: the comma-grouped number
regex, confidence 0.9. -/
def engine_extract_quantities (text : String) : List EntityExtraction :=
  (finditerM matchCommaNumAt text.data).map (mkPlain "QUANTITY" 0.9 text)

/-- `ConstructionNLPEngine.extract_entities` with an untrained BERT model:
each spaCy entity is added only if it does not overlap an already-accepted
one; the quantity entities are then appended with no overlap check, and
the whole list is sorted by start offset. -/
def engine_extract_entities (o : ConstructionOntology)
    (spacyEnts : List SpacyEntity) (text : String) : List EntityExtraction :=
  let tier := spacyEnts.foldl
    (fun entities ent =>
      if entities.any (fun e => ent.start_char < e.stop ∧ e.start < ent.end_char) then
        entities
      else entities ++ [engineAlign o ent])
    []
  sortByStart (tier ++ engine_extract_quantities text)

/-! ## Basic lemmas about the dict and set primitives -/

theorem pyGet_pyInsert_self {κ α : Type} [DecidableEq κ] (k : κ) (v : α)
    (d : List (κ × α)) : pyGet k (pyInsert k v d) = some v := by
  induction d with
  | nil => simp [pyGet, pyInsert]
  | cons p d ih =>
    obtain ⟨k', v'⟩ := p
    by_cases h : k' = k
    · subst h
      simp [pyGet, pyInsert]
    · simp [pyGet, pyInsert, h, ih]

theorem pyGet_pyInsert_ne {κ α : Type} [DecidableEq κ] {k k' : κ} (v : α)
    (d : List (κ × α)) (h : k' ≠ k) : pyGet k (pyInsert k' v d) = pyGet k d := by
  induction d with
  | nil => simp [pyGet, pyInsert, h]
  | cons p d ih =>
    obtain ⟨k₀, v₀⟩ := p
    by_cases h0 : k₀ = k'
    · subst h0
      simp [pyGet, pyInsert, h]
    · by_cases h1 : k₀ = k <;> simp [pyGet, pyInsert, h0, h1, Ne.symm h, ih]

theorem pyGet_pyInsert_same_val {κ α : Type} [DecidableEq κ] {k : κ} {v : α}
    (k' : κ) (d : List (κ × α)) (h : pyGet k d = some v) :
    pyGet k (pyInsert k' v d) = some v := by
  by_cases hk : k' = k
  · subst hk
    exact pyGet_pyInsert_self k' v d
  · rw [pyGet_pyInsert_ne v d hk]
    exact h

theorem pyGet_isSome_pyInsert {κ α : Type} [DecidableEq κ] {k : κ} (k' : κ)
    (v : α) (d : List (κ × α)) (h : (pyGet k d).isSome) :
    (pyGet k (pyInsert k' v d)).isSome := by
  by_cases hk : k' = k
  · subst hk
    simp [pyGet_pyInsert_self]
  · rw [pyGet_pyInsert_ne v d hk]
    exact h

theorem mem_of_pyGet {κ α : Type} [DecidableEq κ] {k : κ} {v : α}
    {d : List (κ × α)} (h : pyGet k d = some v) : (k, v) ∈ d := by
  induction d with
  | nil => simp [pyGet] at h
  | cons p d ih =>
    obtain ⟨k', v'⟩ := p
    by_cases h0 : k' = k
    · subst h0
      simp [pyGet] at h
      simp [h]
    · simp [pyGet, h0] at h
      simp [ih h]

theorem mem_pyInsert {κ α : Type} [DecidableEq κ] {p : κ × α} {k : κ} {v : α}
    {d : List (κ × α)} (h : p ∈ pyInsert k v d) : p = (k, v) ∨ p ∈ d := by
  induction d with
  | nil => simpa [pyInsert] using h
  | cons q d ih =>
    obtain ⟨k', v'⟩ := q
    by_cases h0 : k' = k
    · subst h0
      simp [pyInsert] at h
      rcases h with h | h
      · exact Or.inl h
      · exact Or.inr (List.mem_cons_of_mem _ h)
    · simp [pyInsert, h0] at h
      rcases h with h | h
      · exact Or.inr (by simp [h])
      · rcases ih h with h1 | h1
        · exact Or.inl h1
        · exact Or.inr (List.mem_cons_of_mem _ h1)

theorem pyInsert_of_pyGet {κ α : Type} [DecidableEq κ] {k : κ} {v : α}
    {d : List (κ × α)} (h : pyGet k d = some v) : pyInsert k v d = d := by
  induction d with
  | nil => simp [pyGet] at h
  | cons p d ih =>
    obtain ⟨k', v'⟩ := p
    by_cases h0 : k' = k
    · subst h0
      simp [pyGet] at h
      simp [pyInsert, h]
    · simp [pyGet, h0] at h
      simp [pyInsert, h0, ih h]

theorem mem_sinsert {n m : String} {l : List String} :
    n ∈ sinsert m l ↔ n = m ∨ n ∈ l := by
  unfold sinsert
  by_cases h : m ∈ l
  · rw [if_pos h]
    constructor
    · exact fun h1 => Or.inr h1
    · rintro (h1 | h1)
      · rwa [h1]
      · exact h1
  · rw [if_neg h, List.mem_append, List.mem_singleton]
    exact or_comm

theorem sinsert_idem (n : String) (l : List String) (h : n ∈ l) :
    sinsert n l = l := by
  simp [sinsert, h]

theorem sinsert_nodup {n : String} {l : List String} (h : l.Nodup) :
    (sinsert n l).Nodup := by
  unfold sinsert
  by_cases hm : n ∈ l
  · simpa [hm] using h
  · simp [hm]
    exact List.Nodup.append h (List.nodup_singleton n) (by simpa using hm)

theorem subset_sinsert (n : String) (l : List String) : l ⊆ sinsert n l := by
  intro x hx
  exact mem_sinsert.mpr (Or.inr hx)

/-! ## The synonym-map registration performed by `add_term` -/

/-- All lower-cased surface forms registered by `add_term` for a term. -/
def formKeys (t : VocabularyTerm) : List String :=
  t.synonyms.map pyLower ++ t.abbreviations.map pyLower ++ [pyLower t.canonical_name]

theorem foldl_pyInsert_mem (c : String) (keys : List String) :
    ∀ (m : List (String × String)) (k : String),
      (k ∈ keys.map pyLower ∨ pyGet k m = some c) →
      pyGet k (keys.foldl (fun m s => pyInsert (pyLower s) c m) m) = some c := by
  induction keys with
  | nil =>
    intro m k h
    simpa using h.resolve_left (by simp)
  | cons s keys ih =>
    intro m k h
    simp only [List.foldl_cons]
    rcases h with h | h
    · rcases List.mem_map.mp h with ⟨x, hx, hk⟩
      rcases List.mem_cons.mp hx with hx | hx
      · subst hx
        exact ih _ k (Or.inr (by rw [← hk]; exact pyGet_pyInsert_self _ c m))
      · exact ih _ k (Or.inl (List.mem_map.mpr ⟨x, hx, hk⟩))
    · exact ih _ k (Or.inr (pyGet_pyInsert_same_val _ m h))

theorem foldl_pyInsert_fixed (c : String) (keys : List String)
    (m : List (String × String)) (h : ∀ k ∈ keys.map pyLower, pyGet k m = some c) :
    keys.foldl (fun m s => pyInsert (pyLower s) c m) m = m := by
  induction keys with
  | nil => rfl
  | cons s keys ih =>
    simp only [List.foldl_cons]
    rw [pyInsert_of_pyGet (h (pyLower s) (by simp))]
    exact ih (fun k hk => h k (by simp at hk ⊢; exact Or.inr hk))

theorem registerForms_get_mem {k : String} (m : List (String × String))
    (t : VocabularyTerm) (h : k ∈ formKeys t) :
    pyGet k (registerForms m t) = some t.canonical_name := by
  unfold registerForms
  unfold formKeys at h
  simp only [List.mem_append, List.mem_singleton] at h
  rcases h with (h | h) | h
  · refine pyGet_pyInsert_same_val _ _ ?_
    refine foldl_pyInsert_mem _ _ _ _ (Or.inr ?_)
    exact foldl_pyInsert_mem _ _ _ _ (Or.inl (by simpa using h))
  · refine pyGet_pyInsert_same_val _ _ ?_
    exact foldl_pyInsert_mem _ _ _ _ (Or.inl (by simpa using h))
  · subst h
    exact pyGet_pyInsert_self _ _ _

theorem registerForms_fixed (M : List (String × String)) (t : VocabularyTerm)
    (hall : ∀ k ∈ formKeys t, pyGet k M = some t.canonical_name) :
    registerForms M t = M := by
  simp only [registerForms]
  rw [foldl_pyInsert_fixed _ t.synonyms M
    (fun k hk => hall k (by unfold formKeys; simp at hk ⊢; exact Or.inl hk))]
  rw [foldl_pyInsert_fixed _ t.abbreviations M
    (fun k hk => hall k (by unfold formKeys; simp at hk ⊢; exact Or.inr (Or.inl hk)))]
  exact pyInsert_of_pyGet (hall _ (by unfold formKeys; simp))

theorem registerForms_idem (m : List (String × String)) (t : VocabularyTerm) :
    registerForms (registerForms m t) t = registerForms m t :=
  registerForms_fixed _ t (fun k hk => registerForms_get_mem m t hk)

/-- Claim C8: `add_term` is idempotent per canonical name: adding the same
term twice in a row leaves the vocabulary table, the synonym index and the
category index identical to a single call, and no error is raised on the
duplicate registration (`add_term` is a total function that replaces). -/
theorem add_term_idempotent (o : ConstructionOntology) (t : VocabularyTerm) :
    add_term (add_term o t) t = add_term o t := by
  unfold add_term
  simp only [ConstructionOntology.mk.injEq]
  refine ⟨?_, ?_, ?_⟩
  · exact pyInsert_of_pyGet (pyGet_pyInsert_self _ _ _)
  · exact registerForms_idem _ _
  · funext c
    by_cases hc : c = t.category
    · simp only [hc, if_pos rfl]
      exact sinsert_idem _ _ (mem_sinsert.mpr (Or.inl rfl))
    · simp [hc]

/-! ## Claim C1: work-type classification of the track-hoe sentence -/

/-- Claim C1 (amended): the ordered keyword-table scan of
`_determine_work_type` classifies
`"Excavate 25 cubic yards of soil for foundation using track hoe"` as
`concrete_work`, because the table is scanned in order and the first
entry, `concrete_work`, lists the keyword `"foundation"`, which occurs in
the text; the `excavation` entry is never reached. -/
theorem determine_work_type_track_hoe :
    determine_work_type "Excavate 25 cubic yards of soil for foundation using track hoe" =
      some "concrete_work" := by
  decide

/-- Claim C1 counterexample: on the input of the claim, the classification
does not return `"excavation"` (it returns `"concrete_work"`). -/
theorem determine_work_type_track_hoe_not_excavation :
    ¬ determine_work_type "Excavate 25 cubic yards of soil for foundation using track hoe" =
        some "excavation" := by
  decide

/-! ## Claim C2: normalization of registered surface forms -/

theorem foldl_pyInsert_other (c : String) (keys : List String) :
    ∀ (m : List (String × String)) (k : String), k ∉ keys.map pyLower →
      pyGet k (keys.foldl (fun m s => pyInsert (pyLower s) c m) m) = pyGet k m := by
  induction keys with
  | nil =>
    intro m k _
    rfl
  | cons s keys ih =>
    intro m k hk
    simp only [List.foldl_cons]
    rw [ih _ k (fun h => hk (by simp at h ⊢; exact Or.inr h))]
    exact pyGet_pyInsert_ne c m (fun he => hk (by simp [he.symm]))

theorem registerForms_get_other {k : String} (m : List (String × String))
    (u : VocabularyTerm) (hk : k ∉ formKeys u) :
    pyGet k (registerForms m u) = pyGet k m := by
  unfold registerForms
  unfold formKeys at hk
  simp only [List.mem_append, List.mem_singleton] at hk
  push_neg at hk
  obtain ⟨⟨h1, h2⟩, h3⟩ := hk
  rw [pyGet_pyInsert_ne _ _ (Ne.symm h3)]
  rw [foldl_pyInsert_other _ _ _ _ (by simpa using h2)]
  exact foldl_pyInsert_other _ _ _ _ (by simpa using h1)

theorem pyGet_synonym_map_foldl (ts : List VocabularyTerm) :
    ∀ (s : ConstructionOntology) (k cn : String),
      pyGet k s.synonym_map = some cn → (∀ u ∈ ts, k ∉ formKeys u) →
      pyGet k (ts.foldl add_term s).synonym_map = some cn := by
  induction ts with
  | nil =>
    intro s k cn h _
    exact h
  | cons u ts ih =>
    intro s k cn h hu
    simp only [List.foldl_cons]
    refine ih _ k cn ?_ (fun w hw => hu w (List.mem_cons_of_mem u hw))
    show pyGet k (registerForms s.synonym_map u) = some cn
    rw [registerForms_get_other _ u (hu u (List.mem_cons_self u ts))]
    exact h

/-- Claim C2 (amended): for a surface form `S` (synonym, abbreviation or
canonical name) registered by a term `t` in any store, provided the
lower-cased form of `S` contains no space character and no term added
after `t` registers the same lower-cased key (registration is
last-write-wins), `normalize_term` returns `t.canonical_name` on every
variant `v` of `S` — any letter case, with spaces and underscores
interchanged (formally: the lower-cased, space-to-underscore-normalized
form of `v` equals the lower-cased `S`).  Surface forms whose lower-cased
form contains a space (such as the seed abbreviations "LIN FT", "SQ FT",
"CU YD") are indexed under a key that `normalize_term` can never produce,
and are not found. -/
theorem normalize_term_registered (o : ConstructionOntology) (t : VocabularyTerm)
    (ts : List VocabularyTerm) (S v : String)
    (hS : S ∈ t.synonyms ∨ S ∈ t.abbreviations ∨ S = t.canonical_name)
    (hnospace : ' ' ∉ (pyLower S).data)
    (hv : pyReplaceChar (pyLower v) ' ' '_' = pyLower S)
    (hlater : ∀ u ∈ ts, pyLower S ∉ formKeys u) :
    normalize_term (ts.foldl add_term (add_term o t)) v = some t.canonical_name := by
  unfold normalize_term
  rw [hv]
  refine pyGet_synonym_map_foldl ts _ _ _ ?_ hlater
  show pyGet (pyLower S) (registerForms o.synonym_map t) = some t.canonical_name
  apply registerForms_get_mem
  unfold formKeys
  rcases hS with h | h | h
  · simp only [List.mem_append, List.mem_singleton]
    exact Or.inl (Or.inl (List.mem_map.mpr ⟨S, h, rfl⟩))
  · simp only [List.mem_append, List.mem_singleton]
    exact Or.inl (Or.inr (List.mem_map.mpr ⟨S, h, rfl⟩))
  · subst h
    simp

/-- The seeded store, written around the registration of the
`linear_feet` term: the terms added before it, the term itself, and the
terms added after it. -/
theorem seedOntology_split :
    seedOntology =
      (unitTerms.tail ++ crewTypeTerms ++ equipmentTerms).foldl add_term
        (add_term ((workTypeTerms ++ materialTerms).foldl add_term emptyOntology)
          { canonical_name := "linear_feet", category := .unit
            description := "Linear measurement in feet"
            synonyms := ["linear_foot", "running_feet", "running_foot"]
            abbreviations := ["LF", "LIN FT", "RF"]
            unit_conversions :=
              [("inches", 12.0), ("yards", 0.333), ("meters", 0.3048)] }) := by
  rfl

/-- Witness for the amended C2: the abbreviation `"LF"` of the seed term
`linear_feet` — registered mid-way through seeding and re-registered by no
later seed term — normalizes to `"linear_feet"` in the seeded store. -/
theorem normalize_term_registered_witness :
    normalize_term seedOntology "LF" = some "linear_feet" := by
  rw [seedOntology_split]
  exact normalize_term_registered _ _ _ "LF" "LF"
    (Or.inr (Or.inl (by decide))) (by decide) (by decide) (by decide)

/-- Claim C2 counterexample: `"LIN FT"` is a registered abbreviation of the
seed term `linear_feet`, yet `normalize_term` on `"LIN FT"` returns `none`
(the index key `"lin ft"` contains a space, while `normalize_term` rewrites
every space of its input to an underscore and looks up `"lin_ft"`). -/
theorem normalize_term_lin_ft_none :
    ((pyGet "linear_feet" seedOntology.vocabulary).elim false
      (fun t => t.abbreviations.contains "LIN FT")) = true ∧
    normalize_term seedOntology "LIN FT" = none := by
  exact ⟨by decide, by decide⟩

/-! ## The store invariant and Claim C10 -/

/-- Invariants of every reachable store state: every vocabulary entry is
keyed by its canonical name; every synonym-index value dereferences in the
vocabulary; every category-index name dereferences in the vocabulary; the
category-index name lists are duplicate-free. -/
def StoreInv (o : ConstructionOntology) : Prop :=
  (∀ p ∈ o.vocabulary, p.2.canonical_name = p.1) ∧
  (∀ p ∈ o.synonym_map, (pyGet p.2 o.vocabulary).isSome) ∧
  (∀ c, ∀ n ∈ o.category_index c, (pyGet n o.vocabulary).isSome) ∧
  (∀ c, (o.category_index c).Nodup)

theorem mem_registerForms {p : String × String} {m : List (String × String)}
    {t : VocabularyTerm} (h : p ∈ registerForms m t) :
    p ∈ m ∨ p.2 = t.canonical_name := by
  have base : ∀ (keys : List String) (m0 : List (String × String)),
      p ∈ keys.foldl (fun m s => pyInsert (pyLower s) t.canonical_name m) m0 →
      p ∈ m0 ∨ p.2 = t.canonical_name := by
    intro keys
    induction keys with
    | nil => intro m0 h0; exact Or.inl h0
    | cons s keys ih =>
      intro m0 h0
      simp only [List.foldl_cons] at h0
      rcases ih _ h0 with h1 | h1
      · rcases mem_pyInsert h1 with h2 | h2
        · exact Or.inr (by rw [h2])
        · exact Or.inl h2
      · exact Or.inr h1
  unfold registerForms at h
  rcases mem_pyInsert h with h1 | h1
  · exact Or.inr (by rw [h1])
  · rcases base _ _ h1 with h2 | h2
    · exact base _ _ h2
    · exact Or.inr h2

theorem storeInv_add_term {o : ConstructionOntology} (t : VocabularyTerm)
    (h : StoreInv o) : StoreInv (add_term o t) := by
  obtain ⟨h1, h2, h3, h4⟩ := h
  refine ⟨?_, ?_, ?_, ?_⟩
  · intro p hp
    rcases mem_pyInsert hp with hp1 | hp1
    · rw [hp1]
    · exact h1 p hp1
  · intro p hp
    rcases mem_registerForms hp with hp1 | hp1
    · exact pyGet_isSome_pyInsert _ _ _ (h2 p hp1)
    · rw [hp1]
      simp [add_term, pyGet_pyInsert_self]
  · intro c n hn
    simp only [add_term] at hn
    by_cases hc : c = t.category
    · rw [if_pos hc] at hn
      rcases mem_sinsert.mp hn with hn1 | hn1
      · subst hn1
        simp [add_term, pyGet_pyInsert_self]
      · exact pyGet_isSome_pyInsert _ _ _ (h3 c n hn1)
    · rw [if_neg hc] at hn
      exact pyGet_isSome_pyInsert _ _ _ (h3 c n hn)
  · intro c
    simp only [add_term]
    by_cases hc : c = t.category
    · rw [if_pos hc]
      exact sinsert_nodup (h4 c)
    · rw [if_neg hc]
      exact h4 c

theorem storeInv_foldl {o : ConstructionOntology} (ts : List VocabularyTerm)
    (h : StoreInv o) : StoreInv (ts.foldl add_term o) := by
  induction ts generalizing o with
  | nil => exact h
  | cons t ts ih => exact ih (storeInv_add_term t h)

theorem storeInv_empty : StoreInv emptyOntology := by
  refine ⟨?_, ?_, ?_, ?_⟩ <;> simp [emptyOntology]

theorem storeInv_seed : StoreInv seedOntology :=
  storeInv_foldl seedTerms storeInv_empty

theorem storeInv_of_reachable {o : ConstructionOntology} (h : Reachable o) :
    StoreInv o := by
  induction h with
  | seed => exact storeInv_seed
  | add t _ ih => exact storeInv_add_term t ih

/-- Claim C10 (amended): in every reachable store, a successful
normalization to a non-empty canonical name always dereferences: whenever
`normalize_term` returns a canonical name `c ≠ ""`, `get_term` on the same
input returns a vocabulary term whose `canonical_name` is `c` (the synonym
index never points at a missing vocabulary entry, because terms are never
deleted and `add_term` inserts the term before indexing its surface
forms).  The non-empty guard is forced by `get_term`'s Python truthiness
check `if canonical:`, which treats an empty canonical name as not-found
even though the vocabulary contains the key — see the counterexample. -/
theorem normalize_get_coherent (o : ConstructionOntology) (h : Reachable o)
    (x c : String) (hn : normalize_term o x = some c) (hc : c ≠ "") :
    ∃ t, get_term o x = some t ∧ t.canonical_name = c := by
  have inv := storeInv_of_reachable h
  have hmem := mem_of_pyGet hn
  have hsome := inv.2.1 _ hmem
  obtain ⟨t, ht⟩ := Option.isSome_iff_exists.mp hsome
  refine ⟨t, ?_, ?_⟩
  · unfold get_term
    rw [hn]
    show (if c = "" then none else pyGet c o.vocabulary) = some t
    rw [if_neg hc]
    exact ht
  · exact inv.1 (c, t) (mem_of_pyGet ht)

/-- Witness for C10: `"LF"` normalizes to `"linear_feet"` in the seed
store, and `get_term` dereferences it to the `linear_feet` term. -/
theorem normalize_get_coherent_witness :
    (get_term seedOntology "LF").elim false
      (fun t => t.canonical_name == "linear_feet") = true := by
  obtain ⟨t, ht, hc⟩ :=
    normalize_get_coherent seedOntology Reachable.seed "LF" "linear_feet"
      (by decide) (by decide)
  rw [ht]
  simp [hc]

/-- A vocabulary term whose canonical name is the empty string.  Nothing
in `add_term` or `load_from_json` rejects it (it arises, for example, from
loading a persisted vocabulary whose category object is keyed by `""`), so
stores containing it are reachable program states. -/
def emptyNameTerm : VocabularyTerm :=
  { canonical_name := "", category := .unit, description := "empty-named term"
    synonyms := ["void_unit"] }

/-- A unit term whose conversion table is keyed by the empty string. -/
def sourceUnitTerm : VocabularyTerm :=
  { canonical_name := "srcu", category := .unit, description := "source unit"
    unit_conversions := [("", 5)] }

/-- A reachable store containing a term with an empty canonical name. -/
def emptyNameStore : ConstructionOntology :=
  add_term (add_term seedOntology sourceUnitTerm) emptyNameTerm

/-- Claim C10 counterexample: in the reachable store `emptyNameStore`,
normalizing `"void_unit"` succeeds with the canonical name `""`, and the
vocabulary does hold a term under the key `""`, yet `get_term` returns
`None`: the Python guard `if canonical:` treats the empty canonical name
as falsy, so a successful normalization can dereference to not-found. -/
theorem get_term_empty_canonical :
    Reachable emptyNameStore ∧
    normalize_term emptyNameStore "void_unit" = some "" ∧
    (pyGet "" emptyNameStore.vocabulary).isSome = true ∧
    get_term emptyNameStore "void_unit" = none :=
  ⟨Reachable.add _ (Reachable.add _ Reachable.seed),
   by decide, by decide, by decide⟩

/-! ## Claim C5: unit conversion -/

/-- Claim C5 (amended): `convert_units` multiplies by the registered
factor when the source unit resolves and the target is found in its
conversion table, either verbatim or — provided the normalized target
name is non-empty — after normalizing the target to canonical form, and
returns `none` otherwise; in the seed store,
`convert_units(100, "linear_feet", "meters") = 30.48` and
`convert_units(100, "linear_feet", "bogus_unit")` is `none`.  The
non-empty proviso is forced by the source guard
`if to_canonical and to_canonical in ...` (Python truthiness): a target
normalizing to the empty canonical name yields `none` even when the table
contains the empty-string key — see the counterexample. -/
theorem convert_units_spec :
    convert_units seedOntology 100 "linear_feet" "meters" = some 30.48 ∧
    convert_units seedOntology 100 "linear_feet" "bogus_unit" = none ∧
    (∀ (o : ConstructionOntology) (v : ℚ) (fu tu : String) (t : VocabularyTerm)
        (f : ℚ), get_term o fu = some t → pyGet tu t.unit_conversions = some f →
      convert_units o v fu tu = some (v * f)) ∧
    (∀ (o : ConstructionOntology) (v : ℚ) (fu tu c : String) (t : VocabularyTerm)
        (f : ℚ), get_term o fu = some t → pyGet tu t.unit_conversions = none →
      normalize_term o tu = some c → c ≠ "" → pyGet c t.unit_conversions = some f →
      convert_units o v fu tu = some (v * f)) ∧
    (∀ (o : ConstructionOntology) (v : ℚ) (fu tu : String),
      get_term o fu = none → convert_units o v fu tu = none) ∧
    (∀ (o : ConstructionOntology) (v : ℚ) (fu tu : String) (t : VocabularyTerm),
      get_term o fu = some t → pyGet tu t.unit_conversions = none →
      (∀ c, normalize_term o tu = some c → c ≠ "" →
        pyGet c t.unit_conversions = none) →
      convert_units o v fu tu = none) := by
  refine ⟨?_, by decide, ?_, ?_, ?_, ?_⟩
  · rw [show convert_units seedOntology 100 "linear_feet" "meters" =
        some ((100 : ℚ) * 0.3048) from rfl]
    norm_num
  · intro o v fu tu t f h1 h2
    simp [convert_units, h1, h2]
  · intro o v fu tu c t f h1 h2 h3 hc h4
    simp [convert_units, h1, h2, h3, hc, h4]
  · intro o v fu tu h1
    simp [convert_units, h1]
  · intro o v fu tu t h1 h2 h3
    cases hn : normalize_term o tu with
    | none => simp [convert_units, h1, h2, hn]
    | some c =>
      by_cases hc : c = ""
      · subst hc
        simp [convert_units, h1, h2, hn]
      · simp [convert_units, h1, h2, hn, hc, h3 c hn hc]

/-- Claim C5 counterexample: in the reachable store `emptyNameStore`, the
source unit `"srcu"` resolves to a term whose conversion table does not
contain the target `"void_unit"` verbatim but does contain its normalized
canonical form `""` (with factor 5); the claim then demands `1 * 5`, yet
`convert_units` returns `None`, because the Python guard
`if to_canonical and ...` treats the empty canonical name as falsy. -/
theorem convert_units_empty_canonical :
    Reachable emptyNameStore ∧
    get_term emptyNameStore "srcu" = some sourceUnitTerm ∧
    pyGet "void_unit" sourceUnitTerm.unit_conversions = none ∧
    normalize_term emptyNameStore "void_unit" = some "" ∧
    pyGet "" sourceUnitTerm.unit_conversions = some 5 ∧
    convert_units emptyNameStore 1 "srcu" "void_unit" = none :=
  ⟨Reachable.add _ (Reachable.add _ Reachable.seed),
   by decide, by decide, by decide, by decide, by decide⟩

/-- Witness for C5: the verbatim-lookup branch applied at a one-term store
(a `linear_feet` term with a `meters` factor), with the source unit given
in upper case with a space. -/
theorem convert_units_spec_witness :
    convert_units (add_term emptyOntology
      { canonical_name := "linear_feet", category := .unit
        description := "Linear measurement in feet"
        unit_conversions := [("meters", 0.3048)] }) 10 "LINEAR FEET" "meters" =
      some (10 * 0.3048) :=
  convert_units_spec.2.2.1 _ 10 "LINEAR FEET" "meters"
    { canonical_name := "linear_feet", category := .unit
      description := "Linear measurement in feet"
      unit_conversions := [("meters", 0.3048)] }
    0.3048 (by rfl) (by rfl)

/-! ## Claim C7: pairwise overlap resolution -/

/-- Claim C7: when two candidate spans overlap during overlap resolution
(the input being in sweep order, i.e. sorted by start offset), only the
higher-confidence span survives, and on equal confidences the first-seen
span is kept (`_remove_overlaps` replaces the kept span only on strictly
greater confidence). -/
theorem remove_overlaps_pair (a b : EntityExtraction)
    (hs : a.start ≤ b.start) (hov : b.start < a.stop) :
    remove_overlaps [a, b] = [if a.confidence < b.confidence then b else a] := by
  unfold remove_overlaps
  by_cases hc : a.confidence < b.confidence
  · simp [rmOverlapsGo, hov, hc]
  · simp [rmOverlapsGo, hov, hc]

/-- Witness for C7: of two overlapping candidates with confidences 0.9 and
0.95, only the 0.95 one survives. -/
theorem remove_overlaps_pair_witness :
    remove_overlaps
      [{ start := 0, stop := 3, label := "QUANTITY", text := "500", confidence := 0.9 },
       { start := 1, stop := 4, label := "UNIT", text := "00 L", confidence := 0.95 }] =
      [{ start := 1, stop := 4, label := "UNIT", text := "00 L", confidence := 0.95 }] := by
  have h := remove_overlaps_pair
    { start := 0, stop := 3, label := "QUANTITY", text := "500", confidence := 0.9 }
    { start := 1, stop := 4, label := "UNIT", text := "00 L", confidence := 0.95 }
    (by decide) (by decide)
  rw [if_pos (by norm_num)] at h
  exact h

/-! ## Claim C3: extraction non-overlap -/

/-- Two entity spans overlap when their half-open character ranges
intersect. -/
def NoOverlap (a b : EntityExtraction) : Prop :=
  ¬ (a.start < b.stop ∧ b.start < a.stop)

instance : DecidableRel NoOverlap := fun a b => by
  unfold NoOverlap
  infer_instance

/-- No two entities of the list have overlapping `[start, stop)` ranges. -/
def OverlapFree (l : List EntityExtraction) : Prop := l.Pairwise NoOverlap

instance (l : List EntityExtraction) : Decidable (OverlapFree l) := by
  unfold OverlapFree
  infer_instance

theorem rmOverlapsGo_chain (rest : List EntityExtraction) :
    ∀ (last : EntityExtraction) (acc : List EntityExtraction),
      acc.Pairwise (fun a b => b.stop ≤ a.start) →
      (∀ x ∈ acc, x.stop ≤ last.start) →
      (∀ e ∈ rest, last.start ≤ e.start) →
      rest.Pairwise startLE →
      (rmOverlapsGo last acc rest).Pairwise (fun a b => a.stop ≤ b.start) := by
  induction rest with
  | nil =>
    intro last acc hacc hlast _ _
    unfold rmOverlapsGo
    rw [List.pairwise_reverse]
    exact List.pairwise_cons.mpr ⟨hlast, hacc⟩
  | cons e rest ih =>
    intro last acc hacc hlast hrest hsorted
    have hrest_e : last.start ≤ e.start := hrest e (List.mem_cons_self e rest)
    have hrest' : ∀ f ∈ rest, last.start ≤ f.start :=
      fun f hf => hrest f (List.mem_cons_of_mem e hf)
    obtain ⟨hse, hsorted'⟩ := List.pairwise_cons.mp hsorted
    unfold rmOverlapsGo
    by_cases hov : e.start < last.stop
    · rw [if_pos hov]
      by_cases hc : last.confidence < e.confidence
      · rw [if_pos hc]
        exact ih e acc hacc
          (fun x hx => le_trans (hlast x hx) hrest_e) hse hsorted'
      · rw [if_neg hc]
        exact ih last acc hacc hlast hrest' hsorted'
    · rw [if_neg hov]
      refine ih e (last :: acc) (List.pairwise_cons.mpr ⟨hlast, hacc⟩) ?_ hse hsorted'
      intro x hx
      rcases List.mem_cons.mp hx with hx | hx
      · subst hx
        exact Nat.le_of_not_lt hov
      · exact le_trans (hlast x hx) hrest_e

theorem remove_overlaps_chain {l : List EntityExtraction}
    (h : l.Pairwise startLE) :
    (remove_overlaps l).Pairwise (fun a b => a.stop ≤ b.start) := by
  cases l with
  | nil => simp [remove_overlaps]
  | cons e rest =>
    obtain ⟨h1, h2⟩ := List.pairwise_cons.mp h
    exact rmOverlapsGo_chain rest e [] (List.Pairwise.nil) (by simp) h1 h2

theorem sortByStart_sorted (l : List EntityExtraction) :
    (sortByStart l).Pairwise startLE :=
  List.sorted_insertionSort startLE l

/-- Claim C3 (amended): the overlap-resolution stage guarantees
non-overlap: for every candidate list, sorting by start offset and running
`_remove_overlaps` yields a list with no two overlapping `[start, stop)`
ranges; in particular the lightweight `extract_entities` returns an
overlap-free list for every ontology and every input text.  (The full
engine of `construction_nlp_engine.py` lacks this property — see the
counterexample — because its quantity entities are appended without any
overlap check.) -/
theorem extraction_non_overlap :
    (∀ cands : List EntityExtraction, OverlapFree (remove_overlaps (sortByStart cands))) ∧
    (∀ (o : ConstructionOntology) (text : String),
      OverlapFree (light_extract_entities o text)) := by
  have key : ∀ cands : List EntityExtraction,
      OverlapFree (remove_overlaps (sortByStart cands)) := by
    intro cands
    have h := remove_overlaps_chain (sortByStart_sorted cands)
    refine h.imp ?_
    intro a b hab ⟨h1, h2⟩
    exact absurd (Nat.lt_of_lt_of_le h2 hab) (Nat.lt_irrefl _)
  exact ⟨key, fun o text => key _⟩

/-- Claim C3 counterexample: `ConstructionNLPEngine.extract_entities`
appends the quantity entities with no overlap check: on text `"500"` with
a single external (spaCy) entity spanning `[0, 3)`, the returned list
contains both that entity and a QUANTITY entity with the same span — two
overlapping entities. -/
theorem engine_extract_entities_overlap :
    ¬ OverlapFree (engine_extract_entities seedOntology
        [{ start_char := 0, end_char := 3, label_ := "MATERIAL", text := "500" }]
        "500") := by
  decide

/-! ## Claim C9: analyzing the empty string -/

/-- Claim C9: `analyze_construction_scope` on the empty string raises no
error (it is a total function in the model, and every absence is a `none`)
and returns a `ScopeAnalysis` with an empty entity list, no work type, no
operation, and confidence score exactly 0. -/
theorem analyze_empty_string :
    (analyze_construction_scope seedOntology "").entities = [] ∧
    (analyze_construction_scope seedOntology "").work_type = none ∧
    (analyze_construction_scope seedOntology "").operation = none ∧
    (analyze_construction_scope seedOntology "").confidence_score = 0 := by
  decide

/-! ## Claim C4: load failure is fatal but not atomic -/

/-- Claim C4 counterexample: loading data whose second term object lacks
the required `description` field fails (models the `KeyError`), but the
state carried out of the failed load already contains the first term —
the store is left partially loaded, its vocabulary differs from the
initial (empty, as the repository test clears the store before loading)
state. -/
theorem load_from_json_not_atomic :
    load_from_json emptyOntology
        [(.material, [("t1", { description := some "first term" }), ("t2", {})])] =
      .error (add_term emptyOntology (mkLoadedTerm "t1" .material "first term"
        { description := some "first term" })) ∧
    pyGet "t1" (add_term emptyOntology (mkLoadedTerm "t1" .material "first term"
        { description := some "first term" })).vocabulary ≠ none ∧
    pyGet "t1" emptyOntology.vocabulary = none := by
  refine ⟨rfl, by decide, by decide⟩

/-- Claim C4 (amended): loading a persisted vocabulary in which some term
object is missing the required `description` field fails as a fatal
load-time error, but the load is not atomic: the store at the failure
retains every term processed before the malformed entry. -/
theorem load_from_json_partial (o : ConstructionOntology) (c : VocabularyCategory)
    (pre : List (String × RawTermData)) (n : String) (bad : RawTermData)
    (post : List (String × RawTermData))
    (hpre : ∀ p ∈ pre, p.2.description.isSome)
    (hbad : bad.description = none) :
    load_from_json o [(c, pre ++ (n, bad) :: post)] =
      .error (pre.foldl (fun o p =>
        add_term o (mkLoadedTerm p.1 c (p.2.description.getD "") p.2)) o) := by
  suffices h : ∀ o : ConstructionOntology, (∀ p ∈ pre, p.2.description.isSome) →
      loadTermList o c (pre ++ (n, bad) :: post) =
        .error (pre.foldl (fun o p =>
          add_term o (mkLoadedTerm p.1 c (p.2.description.getD "") p.2)) o) by
    simp [load_from_json, h o hpre]
  clear hpre
  induction pre with
  | nil =>
    intro o _
    simp [loadTermList, hbad]
  | cons q pre ih =>
    intro o hpre
    obtain ⟨desc, hdesc⟩ := Option.isSome_iff_exists.mp
      (hpre q (List.mem_cons_self q pre))
    simp only [List.cons_append, loadTermList, hdesc, List.foldl_cons, List.append_eq]
    rw [ih _ (fun p hp => hpre p (List.mem_cons_of_mem q hp))]
    simp [hdesc]

/-- Witness for the amended C4: a two-term load whose second term lacks a
description fails with the first term already added. -/
theorem load_from_json_partial_witness :
    load_from_json emptyOntology
        [(.unit, [("u1", { description := some "a unit" }), ("u2", {})])] =
      .error ([("u1", ({ description := some "a unit" } : RawTermData))].foldl
        (fun o p =>
          add_term o (mkLoadedTerm p.1 .unit (p.2.description.getD "") p.2))
        emptyOntology) :=
  load_from_json_partial emptyOntology .unit
    [("u1", { description := some "a unit" })] "u2" {} [] (by decide) (by decide)

/-! ## Claim C6: round-trip serialization -/

theorem optTraverse_isSome {α β : Type} (f : α → Option β) (l : List α)
    (h : ∀ a ∈ l, (f a).isSome) :
    ∃ out, optTraverse f l = some out ∧
      List.Forall₂ (fun a b => f a = some b) l out := by
  induction l with
  | nil => exact ⟨[], rfl, List.Forall₂.nil⟩
  | cons a l ih =>
    obtain ⟨b, hb⟩ := Option.isSome_iff_exists.mp (h a (List.mem_cons_self a l))
    obtain ⟨out, hout, hrel⟩ := ih (fun x hx => h x (List.mem_cons_of_mem a hx))
    exact ⟨b :: out, by simp [optTraverse, hb, hout], List.Forall₂.cons hb hrel⟩

theorem optTraverse_forall₂ {α β : Type} {f : α → Option β} :
    ∀ {l : List α} {out : List β}, optTraverse f l = some out →
      List.Forall₂ (fun a b => f a = some b) l out := by
  intro l
  induction l with
  | nil =>
    intro out h
    simp only [optTraverse, Option.some.injEq] at h
    subst h
    exact List.Forall₂.nil
  | cons a l ih =>
    intro out h
    simp only [optTraverse] at h
    cases hb : f a with
    | none => rw [hb] at h; exact absurd h (by simp)
    | some b =>
      rw [hb] at h
      cases hout : optTraverse f l with
      | none => rw [hout] at h; exact absurd h (by simp)
      | some os =>
        rw [hout] at h
        simp only [Option.map_some', Option.some.injEq] at h
        subst h
        exact List.Forall₂.cons hb (ih hout)

theorem forall₂_keys {κ β : Type} {P : κ → β → Prop} {keys : List κ}
    {l : List (κ × β)}
    (h : List.Forall₂ (fun k p => p.1 = k ∧ P k p.2) keys l) :
    l.map Prod.fst = keys := by
  induction h with
  | nil => rfl
  | cons h1 _ ih => simp [ih, h1.1]

theorem pyGet_forall₂_mem {κ β : Type} [DecidableEq κ] {P : κ → β → Prop} :
    ∀ {keys : List κ} {l : List (κ × β)},
      List.Forall₂ (fun k p => p.1 = k ∧ P k p.2) keys l → keys.Nodup →
      ∀ k ∈ keys, ∃ v, pyGet k l = some v ∧ P k v := by
  intro keys l h
  induction h with
  | nil => intro _ k hk; exact absurd hk (List.not_mem_nil k)
  | @cons k0 p keys l h1 h2 ih =>
    intro hnd k hk
    obtain ⟨p1, p2⟩ := p
    obtain ⟨hp1, hp2⟩ := h1
    simp only at hp1 hp2
    rcases List.mem_cons.mp hk with hk | hk
    · subst hk
      exact ⟨p2, by simp [pyGet, hp1], hp2⟩
    · have hne : p1 ≠ k := by
        rw [hp1]
        intro he
        rw [he] at hnd
        exact (List.nodup_cons.mp hnd).1 hk
      obtain ⟨v, hv, hPv⟩ := ih (List.nodup_cons.mp hnd).2 k hk
      exact ⟨v, by simp [pyGet, hne, hv], hPv⟩

theorem pyGet_forall₂_not_mem {κ β : Type} [DecidableEq κ] {P : κ → β → Prop} :
    ∀ {keys : List κ} {l : List (κ × β)},
      List.Forall₂ (fun k p => p.1 = k ∧ P k p.2) keys l →
      ∀ k, k ∉ keys → pyGet k l = none := by
  intro keys l h
  induction h with
  | nil => intro k _; rfl
  | @cons k0 p keys l h1 h2 ih =>
    intro k hk
    have hne : p.1 ≠ k := by
      rw [h1.1]
      intro he
      exact hk (he ▸ List.mem_cons_self k0 keys)
    obtain ⟨p1, p2⟩ := p
    simp only at hne
    simp [pyGet, hne, ih k (fun hmem => hk (List.mem_cons_of_mem k0 hmem))]

theorem forall₂_mem_right {α β : Type} {R : α → β → Prop} :
    ∀ {l₁ : List α} {l₂ : List β}, List.Forall₂ R l₁ l₂ →
      ∀ b ∈ l₂, ∃ a ∈ l₁, R a b := by
  intro l₁ l₂ h
  induction h with
  | nil => intro b hb; exact absurd hb (List.not_mem_nil b)
  | @cons a b l₁ l₂ h1 h2 ih =>
    intro x hx
    rcases List.mem_cons.mp hx with hx | hx
    · exact ⟨a, List.mem_cons_self a l₁, hx ▸ h1⟩
    · obtain ⟨a1, ha1, hR⟩ := ih x hx
      exact ⟨a1, List.mem_cons_of_mem a ha1, hR⟩

theorem mem_allCategories (c : VocabularyCategory) : c ∈ allCategories := by
  cases c <;> simp [allCategories]

theorem allCategories_nodup : allCategories.Nodup := by decide

/-- Characterization of a successful export of a store satisfying the
invariant: the exported data is keyed by every category, each category
block is keyed exactly by the category index (in order), and each entry is
the field block of the corresponding vocabulary term. -/
theorem export_vocabulary_spec {o : ConstructionOntology} (inv : StoreInv o) :
    ∃ d, export_vocabulary o = some d ∧ d.map Prod.fst = allCategories ∧
      ∀ c : VocabularyCategory,
        ∃ lc, pyGet c d = some lc ∧ lc.map Prod.fst = o.category_index c ∧
          List.Forall₂ (fun n q => q.1 = n ∧
              ∃ t, pyGet n o.vocabulary = some t ∧ q.2 = toExportData t)
            (o.category_index c) lc := by
  have hcat : ∀ c : VocabularyCategory, ∃ lc, exportCat o c = some lc ∧
      List.Forall₂ (fun n q => q.1 = n ∧
          ∃ t, pyGet n o.vocabulary = some t ∧ q.2 = toExportData t)
        (o.category_index c) lc := by
    intro c
    obtain ⟨lc, hlc, hrel⟩ := optTraverse_isSome
      (fun n => (pyGet n o.vocabulary).map (fun t => (n, toExportData t)))
      (o.category_index c)
      (fun n hn => by
        obtain ⟨t, ht⟩ := Option.isSome_iff_exists.mp (inv.2.2.1 c n hn)
        simp [ht])
    refine ⟨lc, hlc, hrel.imp ?_⟩
    intro n q hq
    obtain ⟨t, ht, hq2⟩ := Option.map_eq_some'.mp hq
    exact ⟨by rw [← hq2], t, ht, by rw [← hq2]⟩
  obtain ⟨d, hd, hdrel⟩ := optTraverse_isSome
    (fun c => (exportCat o c).map (fun l => (c, l))) allCategories
    (fun c _ => by
      obtain ⟨lc, hlc, _⟩ := hcat c
      simp [hlc])
  have hdrel' : List.Forall₂ (fun c p => p.1 = c ∧ exportCat o c = some p.2)
      allCategories d := by
    refine hdrel.imp ?_
    intro c p hp
    obtain ⟨lc, hlc, hp2⟩ := Option.map_eq_some'.mp hp
    refine ⟨by rw [← hp2], ?_⟩
    rw [← hp2]
    exact hlc
  refine ⟨d, hd, forall₂_keys (P := fun c lc => exportCat o c = some lc) hdrel', ?_⟩
  intro c
  obtain ⟨lc, hlcd, hlc⟩ := pyGet_forall₂_mem
    (P := fun c lc => exportCat o c = some lc) hdrel' allCategories_nodup c
    (mem_allCategories c)
  obtain ⟨lc2, hlc2, hrel2⟩ := hcat c
  rw [hlc2] at hlc
  have heq : lc2 = lc := Option.some.inj hlc
  exact ⟨lc, hlcd, by
      rw [← heq]
      exact forall₂_keys
        (P := fun n e => ∃ t, pyGet n o.vocabulary = some t ∧ e = toExportData t)
        hrel2,
    by rw [← heq]; exact hrel2⟩

theorem pyGet_pyInsert {κ α : Type} [DecidableEq κ] (k k' : κ) (v : α)
    (d : List (κ × α)) :
    pyGet k (pyInsert k' v d) = if k' = k then some v else pyGet k d := by
  by_cases h : k' = k
  · subst h
    simp [pyGet_pyInsert_self]
  · simp [h, pyGet_pyInsert_ne v d h]

theorem pyGet_of_mem_nodup {κ α : Type} [DecidableEq κ] :
    ∀ {d : List (κ × α)}, (d.map Prod.fst).Nodup → ∀ {p : κ × α}, p ∈ d →
      pyGet p.1 d = some p.2 := by
  intro d
  induction d with
  | nil => intro _ p hp; exact absurd hp (List.not_mem_nil p)
  | cons q d ih =>
    intro hnd p hp
    obtain ⟨q1, q2⟩ := q
    rcases List.mem_cons.mp hp with hp | hp
    · subst hp
      simp [pyGet]
    · have hne : q1 ≠ p.1 := by
        intro he
        have : p.1 ∈ d.map Prod.fst := List.mem_map.mpr ⟨p, hp, rfl⟩
        rw [← he] at this
        exact (List.nodup_cons.mp (by simpa using hnd)).1 this
      simp only [pyGet, if_neg hne]
      exact ih (List.nodup_cons.mp (by simpa using hnd)).2 hp

/-- The last vocabulary term named `n` in an `add_term` call sequence. -/
def lastAdded (n : String) : List VocabularyTerm → Option VocabularyTerm
  | [] => none
  | t :: ts =>
    match lastAdded n ts with
    | some u => some u
    | none => if t.canonical_name = n then some t else none

theorem lastAdded_isSome {n : String} :
    ∀ {ts : List VocabularyTerm}, (∃ u ∈ ts, u.canonical_name = n) →
      (lastAdded n ts).isSome := by
  intro ts
  induction ts with
  | nil =>
    rintro ⟨u, hu, _⟩
    exact absurd hu (List.not_mem_nil u)
  | cons t ts ih =>
    rintro ⟨u, hu, hn⟩
    simp only [lastAdded]
    cases hl : lastAdded n ts with
    | some _ => simp
    | none =>
      rcases List.mem_cons.mp hu with hu | hu
      · subst hu
        simp [hn]
      · have hs := ih ⟨u, hu, hn⟩
        rw [hl] at hs
        simp at hs

theorem lastAdded_mem {n : String} :
    ∀ {ts : List VocabularyTerm} {t : VocabularyTerm},
      lastAdded n ts = some t → t ∈ ts ∧ t.canonical_name = n := by
  intro ts
  induction ts with
  | nil =>
    intro t h
    simp [lastAdded] at h
  | cons u ts ih =>
    intro t h
    simp only [lastAdded] at h
    cases hl : lastAdded n ts with
    | some w =>
      rw [hl] at h
      have hw : w = t := Option.some.inj h
      subst hw
      obtain ⟨h1, h2⟩ := ih hl
      exact ⟨List.mem_cons_of_mem _ h1, h2⟩
    | none =>
      rw [hl] at h
      by_cases hc : u.canonical_name = n
      · rw [if_pos hc] at h
        have hu : u = t := Option.some.inj h
        subst hu
        exact ⟨List.mem_cons_self u ts, hc⟩
      · rw [if_neg hc] at h
        exact absurd h (by simp)

theorem pyGet_foldl_add_term (ts : List VocabularyTerm) :
    ∀ (o : ConstructionOntology) (n : String),
      pyGet n (ts.foldl add_term o).vocabulary =
        match lastAdded n ts with
        | some t => some t
        | none => pyGet n o.vocabulary := by
  induction ts with
  | nil =>
    intro o n
    rfl
  | cons t ts ih =>
    intro o n
    simp only [List.foldl_cons, lastAdded]
    rw [ih]
    cases lastAdded n ts with
    | some u => rfl
    | none =>
      show pyGet n (pyInsert t.canonical_name t o.vocabulary) = _
      rw [pyGet_pyInsert]
      by_cases h : t.canonical_name = n <;> simp [h]

theorem mem_index_foldl_add_term (ts : List VocabularyTerm) :
    ∀ (o : ConstructionOntology) (c : VocabularyCategory) (n : String),
      n ∈ (ts.foldl add_term o).category_index c ↔
        n ∈ o.category_index c ∨ ∃ t ∈ ts, t.canonical_name = n ∧ t.category = c := by
  induction ts with
  | nil =>
    intro o c n
    simp
  | cons t ts ih =>
    intro o c n
    simp only [List.foldl_cons]
    rw [ih]
    constructor
    · rintro (h | h)
      · show _ ∨ ∃ u ∈ t :: ts, _
        by_cases hc : c = t.category
        · rw [show (add_term o t).category_index c =
              sinsert t.canonical_name (o.category_index c) by
              simp [add_term, hc]] at h
          rcases mem_sinsert.mp h with h | h
          · exact Or.inr ⟨t, List.mem_cons_self t ts, h.symm, hc.symm⟩
          · exact Or.inl h
        · rw [show (add_term o t).category_index c = o.category_index c by
              simp [add_term, hc]] at h
          exact Or.inl h
      · obtain ⟨u, hu, h1, h2⟩ := h
        exact Or.inr ⟨u, List.mem_cons_of_mem t hu, h1, h2⟩
    · rintro (h | h)
      · left
        show n ∈ (add_term o t).category_index c
        by_cases hc : c = t.category
        · rw [show (add_term o t).category_index c =
              sinsert t.canonical_name (o.category_index c) by simp [add_term, hc]]
          exact subset_sinsert _ _ h
        · rw [show (add_term o t).category_index c = o.category_index c by
              simp [add_term, hc]]
          exact h
      · obtain ⟨u, hu, h1, h2⟩ := h
        rcases List.mem_cons.mp hu with hu | hu
        · subst hu
          left
          show n ∈ (add_term o u).category_index c
          rw [show (add_term o u).category_index c =
              sinsert u.canonical_name (o.category_index c) by simp [add_term, h2.symm]]
          exact mem_sinsert.mpr (Or.inl h1.symm)
        · exact Or.inr ⟨u, hu, h1, h2⟩

theorem index_subset_add_term (o : ConstructionOntology) (t : VocabularyTerm)
    (c : VocabularyCategory) :
    o.category_index c ⊆ (add_term o t).category_index c := by
  intro x hx
  simp only [add_term]
  by_cases hc : c = t.category
  · rw [if_pos hc]
    exact subset_sinsert _ _ hx
  · rw [if_neg hc]
    exact hx

theorem seed_index_subset {o : ConstructionOntology} (h : Reachable o)
    (c : VocabularyCategory) :
    seedOntology.category_index c ⊆ o.category_index c := by
  induction h with
  | seed => exact fun x hx => hx
  | add t _ ih => exact fun x hx => index_subset_add_term _ t c (ih hx)

theorem loadTermList_all_some (c : VocabularyCategory) :
    ∀ (terms : List (String × RawTermData)) (o : ConstructionOntology),
      (∀ p ∈ terms, p.2.description.isSome) →
      loadTermList o c terms = .ok
        ((terms.filterMap (fun q => q.2.description.map
          (fun desc => mkLoadedTerm q.1 c desc q.2))).foldl add_term o) := by
  intro terms
  induction terms with
  | nil =>
    intro o _
    rfl
  | cons q terms ih =>
    intro o hs
    obtain ⟨desc, hdesc⟩ := Option.isSome_iff_exists.mp
      (hs q (List.mem_cons_self q terms))
    obtain ⟨q1, q2⟩ := q
    simp only at hdesc
    simp only [loadTermList, hdesc, List.filterMap_cons, Option.map_some',
      List.foldl_cons]
    exact ih _ (fun p hp => hs p (List.mem_cons_of_mem _ hp))

/-- The flattened `add_term` sequence a successful `load_from_json`
performs. -/
def loadedTerms (data : List (VocabularyCategory × List (String × RawTermData))) :
    List VocabularyTerm :=
  data.flatMap (fun p => p.2.filterMap (fun q => q.2.description.map
    (fun desc => mkLoadedTerm q.1 p.1 desc q.2)))

theorem load_from_json_all_some :
    ∀ (data : List (VocabularyCategory × List (String × RawTermData)))
      (o : ConstructionOntology),
      (∀ p ∈ data, ∀ q ∈ p.2, q.2.description.isSome) →
      load_from_json o data = .ok ((loadedTerms data).foldl add_term o) := by
  intro data
  induction data with
  | nil =>
    intro o _
    rfl
  | cons p data ih =>
    intro o h
    obtain ⟨c, terms⟩ := p
    simp only [load_from_json]
    simp only [loadTermList_all_some c terms o (h (c, terms) (List.mem_cons_self _ _))]
    rw [ih _ (fun p hp q hq => h p (List.mem_cons_of_mem _ hp) q hq)]
    simp only [loadedTerms, List.flatMap_cons, List.foldl_append]

/-- The term `load_from_json` constructs for one exported entry. -/
def eTerm (c : VocabularyCategory) (q : String × TermExportData) : VocabularyTerm :=
  mkLoadedTerm q.1 c q.2.description (rawOfExportTerm q.2)

theorem toExportData_eTerm (c : VocabularyCategory) (q : String × TermExportData) :
    toExportData (eTerm c q) = q.2 := rfl

/-- The `add_term` sequence performed when loading exported data. -/
def dTerms (d : List (VocabularyCategory × List (String × TermExportData))) :
    List VocabularyTerm :=
  d.flatMap (fun p => p.2.map (eTerm p.1))

theorem rawOfExportTerm_description (e : TermExportData) :
    (rawOfExportTerm e).description = some e.description := rfl

theorem loadedTerms_rawOfExport
    (d : List (VocabularyCategory × List (String × TermExportData))) :
    loadedTerms (rawOfExport d) = dTerms d := by
  unfold loadedTerms rawOfExport dTerms
  rw [List.flatMap_map]
  congr 1
  funext p
  simp only
  induction p.2 with
  | nil => rfl
  | cons q l ih =>
    simp only [List.map_cons, List.filterMap_cons, rawOfExportTerm_description,
      Option.map_some']
    rw [ih]
    rfl

theorem rawOfExport_descriptions
    (d : List (VocabularyCategory × List (String × TermExportData))) :
    ∀ p ∈ rawOfExport d, ∀ q ∈ p.2, q.2.description.isSome := by
  intro p hp q hq
  unfold rawOfExport at hp
  obtain ⟨p0, _, hp0⟩ := List.mem_map.mp hp
  rw [← hp0] at hq
  simp only at hq
  obtain ⟨q0, _, hq0⟩ := List.mem_map.mp hq
  rw [← hq0]
  simp [rawOfExportTerm]

theorem mem_dTerms {u : VocabularyTerm}
    {d : List (VocabularyCategory × List (String × TermExportData))} :
    u ∈ dTerms d ↔ ∃ p ∈ d, ∃ q ∈ p.2, u = eTerm p.1 q := by
  unfold dTerms
  simp only [List.mem_flatMap, List.mem_map]
  constructor
  · rintro ⟨p, hp, q, hq, rfl⟩
    exact ⟨p, hp, q, hq, rfl⟩
  · rintro ⟨p, hp, q, hq, rfl⟩
    exact ⟨p, hp, q, hq, rfl⟩

/-- Every term of the load sequence for exported data `d` of a store `o`
carries exactly the exported field block of the corresponding vocabulary
term of `o`. -/
theorem dTerms_block {o : ConstructionOntology}
    {d : List (VocabularyCategory × List (String × TermExportData))}
    (hnd : (d.map Prod.fst).Nodup)
    (hspec : ∀ c : VocabularyCategory,
      ∃ lc, pyGet c d = some lc ∧ lc.map Prod.fst = o.category_index c ∧
        List.Forall₂ (fun n q => q.1 = n ∧
            ∃ t, pyGet n o.vocabulary = some t ∧ q.2 = toExportData t)
          (o.category_index c) lc)
    {u : VocabularyTerm} (hu : u ∈ dTerms d) :
    ∃ t, pyGet u.canonical_name o.vocabulary = some t ∧
      toExportData u = toExportData t := by
  obtain ⟨p, hp, q, hq, rfl⟩ := mem_dTerms.mp hu
  obtain ⟨lc, hlc, _, hrel⟩ := hspec p.1
  have hplc : p.2 = lc := by
    have := pyGet_of_mem_nodup hnd hp
    rw [hlc] at this
    exact (Option.some.inj this).symm
  rw [hplc] at hq
  obtain ⟨m, _, hmq⟩ := forall₂_mem_right hrel q hq
  obtain ⟨hq1, t, ht, hq2⟩ := hmq
  refine ⟨t, ?_, ?_⟩
  · show pyGet (eTerm p.1 q).canonical_name o.vocabulary = some t
    have : (eTerm p.1 q).canonical_name = m := by
      show q.1 = m
      exact hq1
    rw [this]
    exact ht
  · rw [toExportData_eTerm]
    exact hq2

/-- A name appears with category `c` in the load sequence for exported
data `d` exactly when it is in the category index of `o` for `c`. -/
theorem dTerms_name_iff {o : ConstructionOntology}
    {d : List (VocabularyCategory × List (String × TermExportData))}
    (hkeysd : d.map Prod.fst = allCategories)
    (hspec : ∀ c : VocabularyCategory,
      ∃ lc, pyGet c d = some lc ∧ lc.map Prod.fst = o.category_index c ∧
        List.Forall₂ (fun n q => q.1 = n ∧
            ∃ t, pyGet n o.vocabulary = some t ∧ q.2 = toExportData t)
          (o.category_index c) lc)
    (c : VocabularyCategory) (n : String) :
    (∃ u ∈ dTerms d, u.canonical_name = n ∧ u.category = c) ↔
      n ∈ o.category_index c := by
  have hnd : (d.map Prod.fst).Nodup := by
    rw [hkeysd]
    exact allCategories_nodup
  obtain ⟨lc, hlc, hkeys, _⟩ := hspec c
  constructor
  · rintro ⟨u, hu, hname, hcat⟩
    obtain ⟨p, hp, q, hq, rfl⟩ := mem_dTerms.mp hu
    have hpc : p.1 = c := hcat
    have hplc : p.2 = lc := by
      have := pyGet_of_mem_nodup hnd hp
      rw [hpc, hlc] at this
      exact (Option.some.inj this).symm
    rw [← hkeys]
    rw [hplc] at hq
    exact List.mem_map.mpr ⟨q, hq, hname⟩
  · intro hn
    rw [← hkeys] at hn
    obtain ⟨q, hq, hqn⟩ := List.mem_map.mp hn
    refine ⟨eTerm c q, ?_, hqn, rfl⟩
    exact mem_dTerms.mpr ⟨(c, lc), mem_of_pyGet hlc, q, hq, rfl⟩

/-- Reflexivity of the structural export equivalence. -/
theorem termExportEquiv_refl (a : TermExportData) : termExportEquiv a a :=
  ⟨rfl, fun _ => Iff.rfl, fun _ => Iff.rfl, fun _ => Iff.rfl,
   fun _ => rfl, fun _ => rfl⟩

/-- Export, load into a fresh store (`ConstructionOntology()` is seeded),
and export again. -/
def roundtripExport (o : ConstructionOntology) :
    Option (List (VocabularyCategory × List (String × TermExportData))) :=
  (export_vocabulary o).bind (fun d =>
    match load_from_json seedOntology (rawOfExport d) with
    | .ok o2 => export_vocabulary o2
    | .error _ => none)

/-- Claim C6: round-trip serialization is lossless at the export level:
for every reachable store, exporting, loading the exported data into a
fresh (seeded) store, and exporting again succeeds and produces data
structurally equal to the original export — equal
category → canonical-name → field-block contents, with the
synonym/abbreviation/related-term collections compared as sets and the
conversion/property dicts compared as maps. -/
theorem export_load_roundtrip (o : ConstructionOntology) (h : Reachable o) :
    (export_vocabulary o).isSome ∧
    OptEquiv exportEquiv (roundtripExport o) (export_vocabulary o) := by
  have inv := storeInv_of_reachable h
  obtain ⟨d, hd, hkeysd, hspec⟩ := export_vocabulary_spec inv
  have hnd : (d.map Prod.fst).Nodup := by
    rw [hkeysd]
    exact allCategories_nodup
  have hload : load_from_json seedOntology (rawOfExport d) =
      .ok ((dTerms d).foldl add_term seedOntology) := by
    rw [load_from_json_all_some (rawOfExport d) seedOntology
      (rawOfExport_descriptions d)]
    rw [loadedTerms_rawOfExport]
  have inv2 : StoreInv ((dTerms d).foldl add_term seedOntology) :=
    storeInv_foldl (dTerms d) storeInv_seed
  obtain ⟨d2, hd2, hkeysd2, hspec2⟩ := export_vocabulary_spec inv2
  refine ⟨by rw [hd]; rfl, ?_⟩
  have hrt : roundtripExport o = some d2 := by
    unfold roundtripExport
    rw [hd]
    simp only [Option.some_bind, hload, hd2]
  rw [hrt, hd]
  show exportEquiv d2 d
  intro c n
  obtain ⟨lc, hlc, hkeys, hrel⟩ := hspec c
  obtain ⟨lc2, hlc2, hkeys2, hrel2⟩ := hspec2 c
  have hm : n ∈ ((dTerms d).foldl add_term seedOntology).category_index c ↔
      n ∈ o.category_index c := by
    rw [mem_index_foldl_add_term]
    constructor
    · rintro (hseed | ⟨u, hu, hname, hcat⟩)
      · exact seed_index_subset h c hseed
      · exact (dTerms_name_iff hkeysd hspec c n).mp ⟨u, hu, hname, hcat⟩
    · intro hn
      exact Or.inr ((dTerms_name_iff hkeysd hspec c n).mpr hn)
  unfold exportLookup
  rw [hlc, hlc2]
  show OptEquiv termExportEquiv (pyGet n lc2) (pyGet n lc)
  by_cases hn : n ∈ o.category_index c
  · obtain ⟨e, he, hespec⟩ := pyGet_forall₂_mem
      (P := fun n e => ∃ t, pyGet n o.vocabulary = some t ∧ e = toExportData t)
      hrel (inv.2.2.2 c) n hn
    obtain ⟨e2, he2, hespec2⟩ := pyGet_forall₂_mem
      (P := fun n e => ∃ t,
        pyGet n ((dTerms d).foldl add_term seedOntology).vocabulary = some t ∧
        e = toExportData t)
      hrel2 (inv2.2.2.2 c) n (hm.mpr hn)
    rw [he, he2]
    show termExportEquiv e2 e
    obtain ⟨t, ht, rfl⟩ := hespec
    obtain ⟨t2, ht2, rfl⟩ := hespec2
    obtain ⟨u, hu⟩ := Option.isSome_iff_exists.mp (lastAdded_isSome (by
      obtain ⟨u, hu, h1, _⟩ := (dTerms_name_iff hkeysd hspec c n).mpr hn
      exact ⟨u, hu, h1⟩))
    have hpg : pyGet n ((dTerms d).foldl add_term seedOntology).vocabulary =
        some u := by
      rw [pyGet_foldl_add_term, hu]
    have ht2u : t2 = u := by
      rw [ht2] at hpg
      exact Option.some.inj hpg
    obtain ⟨humem, huname⟩ := lastAdded_mem hu
    obtain ⟨t1, ht1, hblock⟩ := dTerms_block hnd hspec humem
    rw [huname] at ht1
    have ht1t : t1 = t := by
      rw [ht] at ht1
      exact (Option.some.inj ht1).symm
    rw [show toExportData t2 = toExportData t by
      rw [ht2u, hblock, ht1t]]
    exact termExportEquiv_refl _
  · rw [pyGet_forall₂_not_mem
        (P := fun n e => ∃ t, pyGet n o.vocabulary = some t ∧ e = toExportData t)
        hrel n hn,
      pyGet_forall₂_not_mem
        (P := fun n e => ∃ t,
          pyGet n ((dTerms d).foldl add_term seedOntology).vocabulary = some t ∧
          e = toExportData t)
        hrel2 n (fun hx => hn (hm.mp hx))]
    trivial

/-- Witness for C6: the round trip applied to the freshly seeded store. -/
theorem export_load_roundtrip_witness :
    (export_vocabulary seedOntology).isSome ∧
    OptEquiv exportEquiv (roundtripExport seedOntology)
      (export_vocabulary seedOntology) :=
  export_load_roundtrip seedOntology Reachable.seed

end BidFlow
